import Mathlib

/-!
Verification development for the TermiBase query analysis and
execution-plan simulation pipeline (`termibase/parser/analyzer.py`,
`termibase/engine/simulator.py`, `termibase/storage/engine.py`,
`termibase/visualizer/renderer.py`).

Strings are modelled as `String` / `List Char`; the Python regular
expressions used by the analyzer are hand-compiled into explicit scanning
functions with the same leftmost-match and greedy/lazy semantics on the
inputs considered.  Python exceptions are modelled by `Option`: a result of
`none` means the corresponding Python call raises.
-/

namespace TermiBase

/-- Python whitespace set used by `str.strip` / `\s` / `str.split()`. -/
def pyWs (c : Char) : Bool :=
  c = ' ' || c = '\t' || c = '\n' || c = '\r' || c = '\x0b' || c = '\x0c'

/-- Python regex `\w` on the ASCII inputs considered: letters, digits, underscore. -/
def wordChar (c : Char) : Bool := c.isAlpha || c.isDigit || c = '_'

/-- Python `str.upper` on ASCII characters. -/
def upChar (c : Char) : Char :=
  if 'a' ≤ c ∧ c ≤ 'z' then Char.ofNat (c.toNat - 32) else c

/-- Python `str.upper` over a character list. -/
def strUpper (s : List Char) : List Char := s.map upChar

/-- Python `str.lower` on ASCII characters. -/
def downChar (c : Char) : Char :=
  if 'A' ≤ c ∧ c ≤ 'Z' then Char.ofNat (c.toNat + 32) else c

/-- Python `str.lower` over a character list. -/
def strLower (s : List Char) : List Char := s.map downChar

/-- Remove a maximal whitespace suffix (helper for `str.strip`). -/
def rdropWs (s : List Char) : List Char := (s.reverse.dropWhile pyWs).reverse

/-- Python `str.strip()`. -/
def strStrip (s : List Char) : List Char := rdropWs (s.dropWhile pyWs)

/-- Does `n` occur as a leading block of `h`? (Python `str.startswith`.) -/
def startsList : List Char → List Char → Bool
  | [], _ => true
  | _ :: _, [] => false
  | a :: n, b :: h => a = b && startsList n h

/-- Does `n` occur as a contiguous block somewhere in `h`? (Python `in`.) -/
def containsSub (n : List Char) : List Char → Bool
  | [] => startsList n []
  | c :: t => startsList n (c :: t) || containsSub n t

/-- Case-insensitive `startsList` (for regexes compiled with `re.IGNORECASE`). -/
def startsListCI : List Char → List Char → Bool
  | [], _ => true
  | _ :: _, [] => false
  | a :: n, b :: h => upChar a = upChar b && startsListCI n h

/-- Parse `\s+`: require at least one whitespace char, consume the maximal run. -/
def parseWsPlus (s : List Char) : Option (List Char) :=
  match s with
  | c :: t => if pyWs c then some (t.dropWhile pyWs) else none
  | [] => none

/-- Parse `\w+`: require at least one word char, return (captured run, rest). -/
def parseWordPlus (s : List Char) : Option (List Char × List Char) :=
  match s with
  | c :: t =>
    if wordChar c then some ((c :: t).takeWhile wordChar, (c :: t).dropWhile wordChar)
    else none
  | [] => none

/-- Parse a literal (case-sensitive), returning the rest. -/
def parseLit (lit s : List Char) : Option (List Char) :=
  if startsList lit s then some (s.drop lit.length) else none

/-- Parse a literal case-insensitively, returning the rest. -/
def parseLitCI (lit s : List Char) : Option (List Char) :=
  if startsListCI lit s then some (s.drop lit.length) else none

/-- Parse `\d+` and convert with Python `int`. -/
def parseDigits (s : List Char) : Option (Nat × List Char) :=
  match s with
  | c :: t =>
    if c.isDigit then
      let run := (c :: t).takeWhile Char.isDigit
      some (run.foldl (fun acc d => 10 * acc + (d.toNat - 48)) 0,
            (c :: t).dropWhile Char.isDigit)
    else none
  | [] => none

/-- Python `str.split(sep)` for a one-character separator: empty pieces kept. -/
def splitChar (sep : Char) : List Char → List (List Char)
  | [] => [[]]
  | c :: t =>
    if c = sep then [] :: splitChar sep t
    else match splitChar sep t with
      | [] => [[c]]
      | p :: ps => (c :: p) :: ps

/-- Python `str.split()` (no argument): split on whitespace runs, dropping empties. -/
def splitWsF : Nat → List Char → List (List Char)
  | 0, _ => []
  | f + 1, s =>
    match s.dropWhile pyWs with
    | [] => []
    | c :: t =>
      ((c :: t).takeWhile (fun x => !pyWs x)) ::
        splitWsF f ((c :: t).dropWhile (fun x => !pyWs x))

def splitWs (s : List Char) : List (List Char) := splitWsF (s.length + 1) s

/-- Effectful map over `Option`: `none` as soon as one element fails
(structural-recursion form of `List.mapM`). -/
def optMapM {α β : Type _} (f : α → Option β) : List α → Option (List β)
  | [] => some []
  | a :: l =>
    match f a with
    | none => none
    | some b =>
      match optMapM f l with
      | none => none
      | some bs => some (b :: bs)

/-- Python `str.join` with separator `" "`. -/
def joinSp : List (List Char) → List Char
  | [] => []
  | [x] => x
  | x :: y :: t => x ++ ' ' :: joinSp (y :: t)

/-- Python `", ".join`. -/
def joinCommaSp : List String → String
  | [] => ""
  | [x] => x
  | x :: y :: t => x ++ ", " ++ joinCommaSp (y :: t)

/-- Python `str.strip(chars)` for the `get_columns` cleanup set `` '`"[]' ``. -/
def stripSetChars (c : Char) : Bool := c = '`' || c = '"' || c = '[' || c = ']'

def stripQuoting (s : List Char) : List Char :=
  ((s.dropWhile stripSetChars).reverse.dropWhile stripSetChars).reverse

/-- Python string `<=`: lexicographic comparison by code point. -/
def strLe : List Char → List Char → Bool
  | [], _ => true
  | _ :: _, [] => false
  | a :: s, b :: t => if a = b then strLe s t else decide (a < b)

/-- Insert into a ≤-sorted list of strings (Python `sorted` over a set:
any comparison sort gives this result, string order being total). -/
def insertSorted (x : String) : List String → List String
  | [] => [x]
  | y :: t => if strLe x.data y.data then x :: y :: t else y :: insertSorted x t

def sortStrings (l : List String) : List String := l.foldr insertSorted []

/-- Python `set` semantics before `sorted`: drop duplicates (keeping one
copy of each element; which copy is irrelevant after sorting). -/
def dedupStr : List String → List String
  | [] => []
  | x :: t => if t.contains x then dedupStr t else x :: dedupStr t

/-- First piece of Python `str.split(sep)` for a multi-character separator:
the text before the first occurrence of `sep`, or the whole string. -/
def firstPieceBefore (sep : List Char) : List Char → List Char
  | [] => []
  | c :: t =>
    if startsList sep (c :: t) then []
    else c :: firstPieceBefore sep t

/-! ### A model of the `sqlparse` leaf-token stream

`QueryAnalyzer.get_query_type`, `get_columns` and `get_where_conditions`
iterate over `sqlparse`'s flattened token stream.  Leaf tokens are modelled
as maximal word runs (identifiers, keywords, numbers), maximal whitespace
runs, and single punctuation/operator characters; token values preserve the
original text, as in `sqlparse`. -/

inductive Tok where
  | word (s : List Char)
  | ws (s : List Char)
  | punct (c : Char)
  deriving DecidableEq, Repr

def Tok.val : Tok → List Char
  | .word s => s
  | .ws s => s
  | .punct c => [c]

def lexF : Nat → List Char → List Tok
  | 0, _ => []
  | f + 1, s =>
    match s with
    | [] => []
    | c :: t =>
      if pyWs c then
        .ws ((c :: t).takeWhile pyWs) :: lexF f ((c :: t).dropWhile pyWs)
      else if wordChar c then
        .word ((c :: t).takeWhile wordChar) :: lexF f ((c :: t).dropWhile wordChar)
      else
        .punct c :: lexF f t

def lexQ (s : List Char) : List Tok := lexF s.length s

/-- The DML keywords recognised by `sqlparse` with token type `DML`. -/
def dmlKeywords : List (List Char) :=
  ["SELECT".data, "INSERT".data, "UPDATE".data, "DELETE".data]

/-- Plain (`Keyword`-typed) keywords of the model, a subset of the
`sqlparse` keyword table sufficient for the queries of this development.
(`CREATE`/`DROP`/`ALTER` carry the distinct `Keyword.DDL` token type in
`sqlparse` and are deliberately not listed: `get_query_type` compares token
types with `is`, which such tokens fail.) -/
def plainKeywords : List (List Char) :=
  ["FROM".data, "WHERE".data, "GROUP".data, "ORDER".data, "BY".data,
   "HAVING".data, "LIMIT".data, "JOIN".data, "INNER".data, "LEFT".data,
   "RIGHT".data, "FULL".data, "OUTER".data, "ON".data, "AS".data,
   "AND".data, "OR".data, "SET".data, "INTO".data, "VALUES".data,
   "DISTINCT".data, "ALL".data]

/-! ### `QueryAnalyzer`

All methods operate on `self.query`, the input with surrounding whitespace
stripped by `__init__`; `self.parsed` is `None` exactly when the stripped
input is empty.  The `*Core` functions below take the stripped text. -/

/-- Models `QueryAnalyzer.get_query_type`: classify by the first significant token. -/
def getQueryTypeCore (q : List Char) : String :=
  if q.isEmpty then "UNKNOWN"
  else
    match (lexQ q).find? (fun t => match t with | .ws _ => false | _ => true) with
    | some (.word w) =>
      let u := strUpper w
      if dmlKeywords.contains u then ⟨u⟩
      else if plainKeywords.contains u then ⟨u⟩
      else "UNKNOWN"
    | _ => "UNKNOWN"

/-! #### `get_tables`

Hand-compilation of the three regex searches of `get_tables`
(analyzer.py lines 54, 61, 70/74/78), all run over `self.query.upper()`. -/

/-- Terminator group of the FROM-clause regex:
`(?:\s*,|\s+WHERE|\s+GROUP|\s+ORDER|\s+HAVING|\s+JOIN|\s+INNER|\s+LEFT|\s+RIGHT|\s+FULL|\s+OUTER|\s+LIMIT|$)`. -/
def fromTerm (s : List Char) : Bool :=
  (match s.dropWhile pyWs with
   | ',' :: _ => true
   | _ => false)
  || (match parseWsPlus s with
      | some s1 =>
        ["WHERE", "GROUP", "ORDER", "HAVING", "JOIN", "INNER", "LEFT",
         "RIGHT", "FULL", "OUTER", "LIMIT"].any
          (fun k => startsList k.data s1)
      | none => false)
  || s.isEmpty

/-- Try the FROM-clause regex `FROM\s+(\w+)(?:\s+\w+)?(?:...)` at one
position; the optional alias group is greedy, so the with-alias parse is
attempted first. -/
def tryFromAt (s : List Char) : Option (List Char) := do
  let s1 ← parseLit "FROM".data s
  let s2 ← parseWsPlus s1
  let (tbl, s3) ← parseWordPlus s2
  let withAlias : Option Unit := do
    let s4 ← parseWsPlus s3
    let (_, s5) ← parseWordPlus s4
    if fromTerm s5 then some () else none
  match withAlias with
  | some _ => some tbl
  | none => if fromTerm s3 then some tbl else none

/-- The `re.search` of the FROM-clause regex: leftmost matching position wins. -/
def searchFrom : List Char → Option (List Char)
  | [] => none
  | c :: t =>
    match tryFromAt (c :: t) with
    | some tbl => some tbl
    | none => searchFrom t

/-- Terminator group of the JOIN-clause regex of `get_tables`:
`(?:\s+ON|\s+WHERE|\s+GROUP|\s+ORDER|\s+HAVING|\s+LIMIT|$)`.
Returns the rest after the terminator so that `re.finditer` can continue
after the full match. -/
def joinTerm (s : List Char) : Option (List Char) :=
  match parseWsPlus' s with
  | some (_, s1) =>
    match ["ON", "WHERE", "GROUP", "ORDER", "HAVING", "LIMIT"].find?
        (fun k => startsList k.data s1) with
    | some k => some (s1.drop k.length)
    | none => if s.isEmpty then some [] else none
  | none => if s.isEmpty then some [] else none
where
  /-- `\s+` keeping the consumed run (for completeness of the match span). -/
  parseWsPlus' (s : List Char) : Option (List Char × List Char) :=
    match s with
    | c :: t => if pyWs c then some ((c :: t).takeWhile pyWs, t.dropWhile pyWs) else none
    | [] => none

/-- The `\s+JOIN\s+(\w+)(?:\s+\w+)?(?:...)` core of the JOIN-clause regex
of `get_tables`, after the optional qualifier. -/
def tryJoinTblCore (s0 : List Char) : Option (List Char × List Char) := do
  let s1 ← parseWsPlus s0
  let s2 ← parseLit "JOIN".data s1
  let s3 ← parseWsPlus s2
  let (tbl, s4) ← parseWordPlus s3
  let withAlias : Option (List Char) := do
    let s5 ← parseWsPlus s4
    let (_, s6) ← parseWordPlus s5
    joinTerm s6
  match withAlias with
  | some rest => some (tbl, rest)
  | none => do
    let rest ← joinTerm s4
    some (tbl, rest)

/-- Try the JOIN-clause regex of `get_tables`
`(?:INNER|LEFT|RIGHT|FULL|OUTER)?\s+JOIN\s+(\w+)(?:\s+\w+)?(?:...)` at one
position, returning the captured table and the rest after the match. -/
def tryJoinTblAt (s : List Char) : Option (List Char × List Char) :=
  match ["INNER", "LEFT", "RIGHT", "FULL", "OUTER"].find?
      (fun k => startsList k.data s) with
  | some k =>
    match tryJoinTblCore (s.drop k.length) with
    | some r => some r
    | none => tryJoinTblCore s
  | none => tryJoinTblCore s

/-- The `re.finditer` of the JOIN-clause regex: scan left to right, continuing
after each match (fuelled by the input length; each match consumes at least
one character). -/
def joinTblScan : Nat → List Char → List (List Char)
  | 0, _ => []
  | _, [] => []
  | f + 1, c :: t =>
    match tryJoinTblAt (c :: t) with
    | some (tbl, rest) => tbl :: joinTblScan f rest
    | none => joinTblScan f t

/-- Try a `KW1\s+(\w+)` or `KW1\s+KW2\s+(\w+)` target regex
(the `INSERT INTO` / `UPDATE` / `DELETE FROM` shapes) at one position. -/
def tryKwAt (k1 : List Char) (k2 : Option (List Char)) (s : List Char) :
    Option (List Char) := do
  let s1 ← parseLit k1 s
  let s2 ← parseWsPlus s1
  let s3 ←
    match k2 with
    | none => some s2
    | some k => do
      let s3 ← parseLit k s2
      parseWsPlus s3
  let (tbl, _) ← parseWordPlus s3
  some tbl

/-- The `re.search` of a DML-target regex, leftmost match. -/
def searchKwTable (k1 : List Char) (k2 : Option (List Char)) :
    List Char → Option (List Char)
  | [] => none
  | c :: t =>
    match tryKwAt k1 k2 (c :: t) with
    | some tbl => some tbl
    | none => searchKwTable k1 k2 t

/-- Models `QueryAnalyzer.get_tables` on the stripped query. -/
def getTablesCore (q : List Char) : List String :=
  let qu := strUpper q
  let fromTbl : List String :=
    match searchFrom qu with
    | some t => [⟨strLower t⟩]
    | none => []
  let joinTbls : List String :=
    (joinTblScan qu.length qu).map (fun t => (⟨strLower t⟩ : String))
  let dmlTbls : List String :=
    if containsSub "INSERT INTO".data qu then
      match searchKwTable "INSERT".data (some "INTO".data) qu with
      | some t => [⟨t⟩] | none => []
    else if containsSub "UPDATE".data qu then
      match searchKwTable "UPDATE".data none qu with
      | some t => [⟨t⟩] | none => []
    else if containsSub "DELETE FROM".data qu then
      match searchKwTable "DELETE".data (some "FROM".data) qu with
      | some t => [⟨t⟩] | none => []
    else []
  sortStrings (dedupStr (fromTbl ++ joinTbls ++ dmlTbls))

/-- Models `QueryAnalyzer.has_joins`: substring membership over the uppercased query. -/
def hasJoinsCore (q : List Char) : Bool :=
  if q.isEmpty then false
  else
    ["JOIN", "INNER JOIN", "LEFT JOIN", "RIGHT JOIN", "FULL JOIN"].any
      (fun k => containsSub k.data (strUpper q))

/-! #### `get_join_info`

Regex `(\w+\s+)?JOIN\s+(\w+)` with `re.IGNORECASE` over the original-case
query.  The optional group is greedy; the leftmost start position of a
match is the start of the word immediately preceding `JOIN` across pure
whitespace, when there is one. -/

/-- Try `(\w+\s+)?JOIN\s+(\w+)` at one position; returns
(optional qualifier word, table, rest after the match). -/
def tryJoinInfoAt (s : List Char) :
    Option (Option (List Char) × List Char × List Char) :=
  let noQual : Option (Option (List Char) × List Char × List Char) := do
    let s1 ← parseLitCI "JOIN".data s
    let s2 ← parseWsPlus s1
    let (tbl, rest) ← parseWordPlus s2
    some (none, tbl, rest)
  match parseWordPlus s with
  | some (w, s1) =>
    (do
      let s2 ← parseWsPlus s1
      let s3 ← parseLitCI "JOIN".data s2
      let s4 ← parseWsPlus s3
      let (tbl, rest) ← parseWordPlus s4
      some (some w, tbl, rest)) <|> noQual
  | none => noQual

def joinInfoScan : Nat → List Char → List (String × String)
  | 0, _ => []
  | _, [] => []
  | f + 1, c :: t =>
    match tryJoinInfoAt (c :: t) with
    | some (qual, tbl, rest) =>
      (match qual with
       | some w => (⟨strUpper w⟩, ⟨tbl⟩)
       | none => ("INNER", ⟨tbl⟩)) :: joinInfoScan f rest
    | none => joinInfoScan f t

/-- Models `QueryAnalyzer.get_join_info` on the stripped query. -/
def getJoinInfoCore (q : List Char) : List (String × String) :=
  if hasJoinsCore q then joinInfoScan q.length q else []

/-! #### `get_order_by` / `get_group_by`

Regexes `ORDER\s+BY\s+(.+?)(?:\s+(?:LIMIT|GROUP|HAVING)|$)` and
`GROUP\s+BY\s+(.+?)(?:\s+(?:ORDER|HAVING|LIMIT)|$)` over the uppercased
query, behind substring gates.  The capture is lazy: it grows one character
at a time (never across a newline, since `.` excludes `\n`) and stops at
the first position where the terminator matches.  The per-column expression
`col.strip().split()[0]` raises `IndexError` on an empty piece, modelled by
`Option`. -/

def clauseTerm (kws : List (List Char)) (s : List Char) : Bool :=
  (match parseWsPlus s with
   | some s1 => kws.any (fun k => startsList k s1)
   | none => false)
  || s.isEmpty

/-- Lazy `(.+?)` capture: smallest nonempty prefix whose end satisfies the
terminator; `acc` holds the reversed capture so far. -/
def lazyCapture (kws : List (List Char)) : Nat → List Char → List Char →
    Option (List Char)
  | 0, _, _ => none
  | f + 1, acc, rest =>
    if acc ≠ [] && clauseTerm kws rest then some acc.reverse
    else
      match rest with
      | [] => none
      | c :: t => if c = '\n' then none else lazyCapture kws f (c :: acc) t

/-- The `re.search` of a `KW1\s+KW2\s+(.+?)(:terminators|$)` clause regex. -/
def searchClause (kw1 kw2 : List Char) (kws : List (List Char)) :
    List Char → Option (List Char)
  | [] => none
  | c :: t =>
    match
      (do
        let s1 ← parseLit kw1 (c :: t)
        let s2 ← parseWsPlus s1
        let s3 ← parseLit kw2 s2
        let s4 ← parseWsPlus s3
        lazyCapture kws (s4.length + 1) [] s4) with
    | some cap => some cap
    | none => searchClause kw1 kw2 kws t

/-- Shared tail of `get_order_by`/`get_group_by`:
`[col.strip().split()[0] for col in clause.split(',')]`; `none` models the
`IndexError` raised on an empty piece. -/
def clauseColumns (clause : List Char) : Option (List String) :=
  ((splitChar ',' (strStrip clause)).mapM
    (fun col => (splitWs (strStrip col)).head?)).map
    (fun l => l.map (fun c => ⟨c⟩))

/-- Models `QueryAnalyzer.get_order_by` on the stripped query; `none` = raises. -/
def getOrderByCore (q : List Char) : Option (List String) :=
  if q.isEmpty then some []
  else
    let qu := strUpper q
    if ¬ containsSub "ORDER BY".data qu then some []
    else
      match searchClause "ORDER".data "BY".data
          ["LIMIT".data, "GROUP".data, "HAVING".data] qu with
      | none => some []
      | some clause => clauseColumns clause

/-- Models `QueryAnalyzer.get_group_by` on the stripped query; `none` = raises. -/
def getGroupByCore (q : List Char) : Option (List String) :=
  if q.isEmpty then some []
  else
    let qu := strUpper q
    if ¬ containsSub "GROUP BY".data qu then some []
    else
      match searchClause "GROUP".data "BY".data
          ["ORDER".data, "HAVING".data, "LIMIT".data] qu with
      | none => some []
      | some clause => clauseColumns clause

/-- Models `QueryAnalyzer.get_limit`: regex `LIMIT\s+(\d+)`, leftmost match. -/
def searchLimit : List Char → Option Nat
  | [] => none
  | c :: t =>
    match
      (do
        let s1 ← parseLit "LIMIT".data (c :: t)
        let s2 ← parseWsPlus s1
        let (n, _) ← parseDigits s2
        some n) with
    | some n => some n
    | none => searchLimit t

def getLimitCore (q : List Char) : Option Nat := searchLimit (strUpper q)

/-! #### `get_columns` -/

/-- The token-collection loop of `get_columns`: skip until the `SELECT`
token, then collect tokens up to the `FROM` keyword.  Every `SELECT` token
triggers the `continue` (it is skipped from the collected list), exactly as
in the source. -/
def selectTokens : List Tok → Bool → List Tok
  | [], _ => []
  | t :: ts, inSel =>
    match t with
    | .word w =>
      if strUpper w = "SELECT".data then selectTokens ts true
      else if inSel && strUpper w = "FROM".data then []
      else if inSel then t :: selectTokens ts inSel
      else selectTokens ts inSel
    | _ => if inSel then t :: selectTokens ts inSel else selectTokens ts inSel

/-- Per-column processing of `get_columns` (alias stripping and cleanup);
returns `none` when the column is filtered out.  Note the asymmetry of the
source: the `AS` detection is case-insensitive (`col.upper()`) but the
split is the case-sensitive `col.split(' AS ')`. -/
def processColumn (colRaw : List Char) : Option String :=
  let col := strStrip colRaw
  let col1 :=
    if containsSub " AS ".data (strUpper col) then
      strStrip (firstPieceBefore " AS ".data col)
    else if col.contains ' ' && !startsList "(".data col then
      let parts := splitWs col
      match parts.getLast? with
      | some last =>
        if parts.length ≥ 2 && last ≠ "DISTINCT".data && last ≠ "ALL".data then
          parts.headI
        else col
      | none => col
    else col
  let col2 := stripQuoting col1
  if col2 ≠ [] && strUpper col2 ≠ "DISTINCT".data && strUpper col2 ≠ "ALL".data then
    some ⟨col2⟩
  else none

/-- Models `QueryAnalyzer.get_columns` on the stripped query. -/
def getColumnsCore (q : List Char) : List String :=
  if getQueryTypeCore q ≠ "SELECT" then []
  else
    let toks := selectTokens (lexQ q) false
    let selectStr := joinSp (toks.map Tok.val)
    if strStrip selectStr = "*".data then ["*"]
    else (splitChar ',' selectStr).filterMap processColumn

/-! #### `get_where_conditions` -/

/-- Collect the tokens after the `WHERE` keyword up to the next
`GROUP`/`ORDER`/`HAVING`/`LIMIT` keyword. -/
def whereTokens : List Tok → Bool → List Tok
  | [], _ => []
  | t :: ts, inWhere =>
    match t with
    | .word w =>
      if !inWhere && strUpper w = "WHERE".data then whereTokens ts true
      else if inWhere &&
          (["GROUP".data, "ORDER".data, "HAVING".data, "LIMIT".data].contains
            (strUpper w)) then []
      else if inWhere then t :: whereTokens ts inWhere
      else whereTokens ts inWhere
    | _ => if inWhere then t :: whereTokens ts inWhere else whereTokens ts inWhere

/-- Does the AND/OR-splitting delimiter regex `\s+(?:AND|OR)\s+`
(`re.IGNORECASE`) match at this position?  Returns the rest after it. -/
def tryAndOrAt (s : List Char) : Option (List Char) := do
  let s1 ← parseWsPlus s
  let s2 ← (parseLitCI "AND".data s1) <|> (parseLitCI "OR".data s1)
  let s3 ← parseWsPlus s2
  some s3

/-- Models `re.split(r'\s+(?:AND|OR)\s+', s)`: pieces between the leftmost
non-overlapping delimiter matches. -/
def splitAndOr : Nat → List Char → List Char → List (List Char)
  | 0, acc, _ => [acc.reverse]
  | _, acc, [] => [acc.reverse]
  | f + 1, acc, c :: t =>
    match tryAndOrAt (c :: t) with
    | some rest => acc.reverse :: splitAndOr f [] rest
    | none => splitAndOr f (c :: acc) t

/-- Models `QueryAnalyzer.get_where_conditions` on the stripped query. -/
def getWhereCore (q : List Char) : List String :=
  if q.isEmpty then []
  else
    let toks := whereTokens (lexQ q) false
    if toks.isEmpty then []
    else
      let condStr := joinSp (toks.map Tok.val)
      (splitAndOr (condStr.length + 1) [] condStr).map
        (fun c => (⟨strStrip c⟩ : String))

/-! #### `analyze` -/

structure Analysis where
  type : String
  tables : List String
  columns : List String
  where_conditions : List String
  has_joins : Bool
  joins : List (String × String)
  order_by : List String
  group_by : List String
  limit : Option Nat
  deriving DecidableEq, Repr

/-- Models `QueryAnalyzer.analyze` on the stripped query.  The dictionary literal
evaluates its values in source order, so an exception from `get_order_by`
(or `get_group_by`) propagates out of `analyze`; this is modelled by the
`Option` bind.  All other components are total. -/
def analyzeCore (q : List Char) : Option Analysis := do
  let ob ← getOrderByCore q
  let gb ← getGroupByCore q
  pure
    { type := getQueryTypeCore q
      tables := getTablesCore q
      columns := getColumnsCore q
      where_conditions := getWhereCore q
      has_joins := hasJoinsCore q
      joins := getJoinInfoCore q
      order_by := ob
      group_by := gb
      limit := getLimitCore q }

/-! `String`-level wrappers: `QueryAnalyzer.__init__` strips the raw input. -/

def getTablesQ (raw : String) : List String := getTablesCore (strStrip raw.data)
def getColumnsQ (raw : String) : List String := getColumnsCore (strStrip raw.data)
def hasJoinsQ (raw : String) : Bool := hasJoinsCore (strStrip raw.data)
def getJoinInfoQ (raw : String) : List (String × String) :=
  getJoinInfoCore (strStrip raw.data)
def getOrderByQ (raw : String) : Option (List String) :=
  getOrderByCore (strStrip raw.data)
def getLimitQ (raw : String) : Option Nat := getLimitCore (strStrip raw.data)
def analyzeQ (raw : String) : Option Analysis := analyzeCore (strStrip raw.data)

/-! ### `ExecutionStep` and the storage collaborator -/

/-- A value in an `ExecutionStep.details` dictionary. -/
inductive DVal where
  | str (s : String)
  | bool (b : Bool)
  | nat (n : Nat)
  | list (l : List String)
  deriving DecidableEq, Repr

/-- Python truthiness of a `details` value. -/
def DVal.truthy : DVal → Bool
  | .str s => !s.isEmpty
  | .bool b => b
  | .nat n => n ≠ 0
  | .list l => !l.isEmpty

/-- Python `str()` of a `details` value as used in f-strings (exact for the
string values the simulator stores). -/
def DVal.text : DVal → String
  | .str s => s
  | .bool b => if b then "True" else "False"
  | .nat n => toString n
  | .list l => joinCommaSp l

/-- Python `dict.get(key, default)` over an insertion-ordered assoc list. -/
def getDetail (d : List (String × DVal)) (k : String) (dflt : DVal) : DVal :=
  match d.find? (fun p => p.1 = k) with
  | some p => p.2
  | none => dflt

/-- Models `engine.ExecutionStep`.  Here `cost` is the float cost weight, modelled as the
exact decimal rational; `rows_processed` is a Python int, always
non-negative here. -/
structure ExecutionStep where
  step_type : String
  description : String
  cost : ℚ
  rows_processed : Nat
  details : List (String × DVal)
  deriving DecidableEq, Repr

/-- Per `StorageEngine.execute` (engine.py line 60), statements whose
stripped, uppercased text starts with `SELECT`, `WITH` or `PRAGMA` as
read-result statements (`fetchall`, no commit). -/
def isReadQuery (q : String) : Bool :=
  let u := strUpper (strStrip q.data)
  startsList "SELECT".data u || startsList "WITH".data u ||
    startsList "PRAGMA".data u

/-- Models `StorageEngine.execute`, state-passing over an abstract database state
`σ`.  SQLite `SELECT`/`PRAGMA` statements do not modify the database, so
the read branch preserves the state and returns the rows given by the
oracle `red` (`none` models a raised `sqlite3` error, which leaves the
state unchanged); any other statement may rewrite the state through the
arbitrary `wrt`.  Result rows are modelled as lists of numbers — only row
counts and `COUNT(*)` values are ever consumed. -/
def engineExecute {σ : Type _} (red : σ → String → Option (List (List Nat)))
    (wrt : σ → String → σ) (st : σ) (q : String) :
    σ × Option (List (List Nat)) :=
  if isReadQuery q then (st, red st q) else (wrt st q, some [])

/-- The `sqlite_master` index listing issued by `get_indexes(None)`. -/
def sqliteMasterIndexQuery : String :=
  "SELECT name FROM sqlite_master WHERE type=\x27index\x27 AND name NOT LIKE \x27sqlite_%\x27"

/-- Models `StorageEngine.get_indexes` for a (possibly empty) table-name argument:
`PRAGMA index_list({table})` when the name is truthy, else the
`sqlite_master` index listing. -/
def engineGetIndexes {σ : Type _} (red : σ → String → Option (List (List Nat)))
    (wrt : σ → String → σ) (st : σ) (t : String) :
    σ × Option (List (List Nat)) :=
  if t.data.isEmpty then
    engineExecute red wrt st sqliteMasterIndexQuery
  else
    engineExecute red wrt st ("PRAGMA index_list(" ++ t ++ ")")

/-! ### `ExecutionSimulator` -/

/-- Models Python `int(total_rows * 0.3)`.  The float product
`n * 0.3` truncates to `⌊3n/10⌋` for every count below `2 ^ 49`
(`0.3` rounds to a double a hair under `3/10`, and the one product rounding
cannot bridge the gap to the next integer at that magnitude), which covers
every reachable SQLite row count in this teaching tool. -/
def mul03 (n : Nat) : Nat := 3 * n / 10

/-- The `try` body of `ExecutionSimulator._estimate_rows` applied to the
outcome of the `COUNT(*)` query: `result[0][0] if result else 100`, the
30%-heuristic when conditions are present, and the bare `except` returning
the default 100 on any raised error (including the `IndexError` of
`result[0][0]` on a malformed first row). -/
def estRowsOf (res : Option (List (List Nat))) (conds : Bool) : Nat :=
  match res with
  | none => 100
  | some rows =>
    match rows with
    | [] => if conds then max 1 (mul03 100) else 100
    | r :: _ =>
      match r with
      | [] => 100
      | v :: _ => if conds then max 1 (mul03 v) else v

/-- Models `ExecutionSimulator._estimate_rows`, state-passing. -/
def estimateRows {σ : Type _} (red : σ → String → Option (List (List Nat)))
    (wrt : σ → String → σ) (st : σ) (t : String) (conds : Bool) : σ × Nat :=
  let (st1, res) := engineExecute red wrt st ("SELECT COUNT(*) FROM " ++ t)
  (st1, estRowsOf res conds)

/-- The `INDEX_SCAN` step record of `_simulate_select` (lines 91–98). -/
def indexScanRec (t : String) (n : Nat) : ExecutionStep :=
  { step_type := "INDEX_SCAN"
    description := "Scanning index on " ++ t
    cost := 1/2
    rows_processed := n
    details := [("table", .str t), ("index_used", .bool true)] }

/-- The `TABLE_SCAN` step record of `_simulate_select` (lines 99–106). -/
def tableScanRec (t : String) (n : Nat) : ExecutionStep :=
  { step_type := "TABLE_SCAN"
    description := "Scanning table " ++ t
    cost := 1
    rows_processed := n
    details := [("table", .str t), ("index_used", .bool false)] }

/-- The per-table scan loop of `_simulate_select` (simulator.py lines
82–106): for each table, look up the indexes (an exception here is NOT
caught and aborts `simulate`), then emit an `INDEX_SCAN` when the table has
an index and the query has WHERE conditions, else a `TABLE_SCAN`. -/
def scanLoop {σ : Type _} (red : σ → String → Option (List (List Nat)))
    (wrt : σ → String → σ) (wcne : Bool) (st : σ) :
    List String → σ × Option (List ExecutionStep)
  | [] => (st, some [])
  | t :: ts =>
    let (s1, idxRes) := engineGetIndexes red wrt st t
    match idxRes with
    | none => (s1, none)
    | some idxs =>
      let canUseIndex := decide (0 < idxs.length) && wcne
      let (s2, step) :=
        if canUseIndex then
          let (s2, n) := estimateRows red wrt s1 t true
          (s2, indexScanRec t n)
        else
          let (s2, n) := estimateRows red wrt s1 t false
          (s2, tableScanRec t n)
      match scanLoop red wrt wcne s2 ts with
      | (s3, none) => (s3, none)
      | (s3, some rest) => (s3, some (step :: rest))

/-- JOIN steps (lines 108–117): emitted only under `has_joins`, one per
join descriptor, fixed cost 0.8 and row estimate `_estimate_join_rows()` = 50. -/
def joinSectionSteps (a : Analysis) : List ExecutionStep :=
  if a.has_joins then
    a.joins.map (fun j =>
      { step_type := "JOIN"
        description := "Performing " ++ j.1 ++ " JOIN with " ++ j.2
        cost := 4/5
        rows_processed := 50
        details := [("join_type", .str j.1), ("table", .str j.2)] })
  else []

/-- FILTER step (lines 119–127): emitted when WHERE conditions are present,
fixed row estimate `_estimate_filtered_rows()` = 30. -/
def filterSectionSteps (a : Analysis) : List ExecutionStep :=
  if a.where_conditions.isEmpty then []
  else
    [{ step_type := "FILTER"
       description := "Applying WHERE filter: " ++ joinCommaSp a.where_conditions
       cost := 3/10
       rows_processed := 30
       details := [("conditions", .list a.where_conditions)] }]

/-- GROUP step (lines 129–137), fixed row estimate 10. -/
def groupSectionSteps (a : Analysis) : List ExecutionStep :=
  if a.group_by.isEmpty then []
  else
    [{ step_type := "GROUP"
       description := "Grouping by: " ++ joinCommaSp a.group_by
       cost := 1/2
       rows_processed := 10
       details := [("columns", .list a.group_by)] }]

/-- SORT step (lines 139–147), fixed row estimate 25. -/
def sortSectionSteps (a : Analysis) : List ExecutionStep :=
  if a.order_by.isEmpty then []
  else
    [{ step_type := "SORT"
       description := "Sorting by: " ++ joinCommaSp a.order_by
       cost := 3/5
       rows_processed := 25
       details := [("columns", .list a.order_by)] }]

/-- LIMIT step (lines 149–157): `if analysis['limit']:` — Python
truthiness, so a parsed limit of 0 (like a missing limit) emits no step. -/
def limitSectionSteps (a : Analysis) : List ExecutionStep :=
  match a.limit with
  | some n =>
    if n ≠ 0 then
      [{ step_type := "LIMIT"
         description := "Applying LIMIT " ++ toString n
         cost := 1/10
         rows_processed := n
         details := [("limit", .nat n)] }]
    else []
  | none => []

/-- PROJECT step (lines 159–167), always emitted, fixed row estimate 20. -/
def projectSectionStep (a : Analysis) : ExecutionStep :=
  { step_type := "PROJECT"
    description :=
      if a.columns = ["*"] then "Projecting all columns"
      else "Projecting columns: " ++
        (if a.columns.isEmpty then "*" else joinCommaSp a.columns)
    cost := 1/5
    rows_processed := 20
    details := [("columns", .list a.columns)] }

/-- The post-scan steps of `_simulate_select` in emission order. -/
def tailSteps (a : Analysis) : List ExecutionStep :=
  joinSectionSteps a ++ filterSectionSteps a ++ groupSectionSteps a ++
    sortSectionSteps a ++ limitSectionSteps a ++ [projectSectionStep a]

/-- Models `ExecutionSimulator._simulate_select`, state-passing; returns the
steps, or `none` when an uncaught storage exception propagates. -/
def simulateSelect {σ : Type _} (red : σ → String → Option (List (List Nat)))
    (wrt : σ → String → σ) (st : σ) (a : Analysis) :
    σ × Option (List ExecutionStep) :=
  if a.tables.isEmpty then (st, some [])
  else
    match scanLoop red wrt (!a.where_conditions.isEmpty) st a.tables with
    | (s, none) => (s, none)
    | (s, some scans) => (s, some (scans ++ tailSteps a))

/-- Models `ExecutionSimulator._simulate_insert`. -/
def simulateInsert (a : Analysis) : List ExecutionStep :=
  match a.tables.head? with
  | some t =>
    [{ step_type := "INSERT"
       description := "Inserting row into " ++ t
       cost := 3/10
       rows_processed := 1
       details := [("table", .str t)] }]
  | none => []

/-- Models `ExecutionSimulator._simulate_update`. -/
def simulateUpdate {σ : Type _} (red : σ → String → Option (List (List Nat)))
    (wrt : σ → String → σ) (st : σ) (a : Analysis) :
    σ × Option (List ExecutionStep) :=
  match a.tables.head? with
  | some t =>
    let (s1, n) := estimateRows red wrt st t (!a.where_conditions.isEmpty)
    let scan : ExecutionStep :=
      { step_type := "TABLE_SCAN"
        description := "Scanning table " ++ t ++ " for matching rows"
        cost := 1
        rows_processed := n
        details := [("table", .str t)] }
    let filt : List ExecutionStep :=
      if a.where_conditions.isEmpty then []
      else
        [{ step_type := "FILTER"
           description := "Filtering rows: " ++ joinCommaSp a.where_conditions
           cost := 3/10
           rows_processed := 30
           details := [("conditions", .list a.where_conditions)] }]
    (s1, some ([scan] ++ filt ++
      [{ step_type := "UPDATE"
         description := "Updating matching rows in " ++ t
         cost := 1/2
         rows_processed := 30
         details := [("table", .str t)] }]))
  | none => (st, some [])

/-- Models `ExecutionSimulator._simulate_delete`. -/
def simulateDelete {σ : Type _} (red : σ → String → Option (List (List Nat)))
    (wrt : σ → String → σ) (st : σ) (a : Analysis) :
    σ × Option (List ExecutionStep) :=
  match a.tables.head? with
  | some t =>
    let (s1, n) := estimateRows red wrt st t (!a.where_conditions.isEmpty)
    let scan : ExecutionStep :=
      { step_type := "TABLE_SCAN"
        description := "Scanning table " ++ t ++ " for matching rows"
        cost := 1
        rows_processed := n
        details := [("table", .str t)] }
    let filt : List ExecutionStep :=
      if a.where_conditions.isEmpty then []
      else
        [{ step_type := "FILTER"
           description := "Filtering rows: " ++ joinCommaSp a.where_conditions
           cost := 3/10
           rows_processed := 30
           details := [("conditions", .list a.where_conditions)] }]
    (s1, some ([scan] ++ filt ++
      [{ step_type := "DELETE"
         description := "Deleting matching rows from " ++ t
         cost := 1/2
         rows_processed := 30
         details := [("table", .str t)] }]))
  | none => (st, some [])

/-- Models `ExecutionSimulator.simulate`, state-passing: analyze (whose exception,
if any, propagates), then dispatch on the query type. -/
def simulateState {σ : Type _} (red : σ → String → Option (List (List Nat)))
    (wrt : σ → String → σ) (st : σ) (q : String) :
    σ × Option (List ExecutionStep) :=
  match analyzeQ q with
  | none => (st, none)
  | some a =>
    if a.type = "SELECT" then simulateSelect red wrt st a
    else if a.type = "INSERT" then (st, some (simulateInsert a))
    else if a.type = "UPDATE" then simulateUpdate red wrt st a
    else if a.type = "DELETE" then simulateDelete red wrt st a
    else
      (st, some
        [{ step_type := "UNKNOWN"
           description := "Executing " ++ a.type ++ " query"
           cost := 1
           rows_processed := 0
           details := [] }])

/-- Runs `simulate` against a stateless oracle answering each storage query
string: the observable behaviour of `simulate` for a fixed database. -/
def simulateO (ans : String → Option (List (List Nat))) (q : String) :
    Option (List ExecutionStep) :=
  (simulateState (fun (_ : Unit) s => ans s) (fun u _ => u) () q).2

/-- The scan step `_simulate_select` emits for one table, as a function of
the stateless oracle (`none` models the uncaught index-lookup exception). -/
def scanStepO (ans : String → Option (List (List Nat))) (wcne : Bool)
    (t : String) : Option ExecutionStep :=
  match (if t.data.isEmpty then ans sqliteMasterIndexQuery
         else ans ("PRAGMA index_list(" ++ t ++ ")")) with
  | none => none
  | some idxs =>
    if decide (0 < idxs.length) && wcne then
      some (indexScanRec t (estRowsOf (ans ("SELECT COUNT(*) FROM " ++ t)) true))
    else
      some (tableScanRec t (estRowsOf (ans ("SELECT COUNT(*) FROM " ++ t)) false))

/-! ### `QueryRenderer.show_suggestions` (renderer.py lines 164–203) -/

/-- The advisory messages accumulated per step by the first loop of
`show_suggestions`: table scans whose details lack a truthy `index_used`
and carry a truthy table name. -/
def scanSuggestions : List ExecutionStep → List String
  | [] => []
  | s :: rest =>
    (if s.step_type = "TABLE_SCAN" &&
        !(getDetail s.details "index_used" (.bool false)).truthy then
      let tv := getDetail s.details "table" (.str "")
      if tv.truthy then
        ["Consider creating an index on " ++ tv.text ++
          " to avoid full table scan"]
      else []
    else []) ++ scanSuggestions rest

/-- The full suggestions list of `show_suggestions`. -/
def suggestionsOf (a : Analysis) (steps : List ExecutionStep) : List String :=
  scanSuggestions steps ++
  (if !a.where_conditions.isEmpty &&
      !steps.any (fun s => s.step_type = "INDEX_SCAN") then
    ["Consider adding indexes on columns used in WHERE clause"]
  else []) ++
  (match steps.getLast? with
   | some last =>
     if last.rows_processed > 1000 then
       ["Large result set (" ++ toString last.rows_processed ++
         " rows). Consider adding LIMIT or more specific WHERE conditions"]
     else []
   | none => [])

/-- The message printed when no suggestion fires (rich markup stripped). -/
def wellOptimizedMsg : String := "Query looks well-optimized!"

/-- The lines reported by `show_suggestions`: the suggestions when any
fired, else exactly the single well-optimized message. -/
def showSuggestionsOut (a : Analysis) (steps : List ExecutionStep) :
    List String :=
  let sug := suggestionsOf a steps
  if sug.isEmpty then [wellOptimizedMsg] else sug

/-! ### Fixed data for concrete runs -/

/-- A storage oracle whose every read returns no rows (no indexes; row
counts fall back to the in-`try` default of 100). -/
def ansEmpty : String → Option (List (List Nat)) := fun _ => some []

/-- A storage oracle for a database with one table `users` of 8 rows
carrying one index (the §8 scenario of the spec). -/
def ansUsers8 : String → Option (List (List Nat)) := fun s =>
  if s = "PRAGMA index_list(users)" then some [[0]]
  else if s = "SELECT COUNT(*) FROM users" then some [[8]]
  else some []

/-- The JOIN-keyword variants named by the specification: unqualified
`JOIN`, or `INNER`/`LEFT`/`RIGHT`/`FULL`/`OUTER` `JOIN`. -/
def joinKeywordVariants : List String :=
  ["JOIN", "INNER JOIN", "LEFT JOIN", "RIGHT JOIN", "FULL JOIN", "OUTER JOIN"]

/-- An analysis with WHERE conditions, paired with a step list holding no
scan step at all (as the renderer may receive). -/
def analysisWhereOnly : Analysis :=
  { type := "SELECT", tables := [], columns := ["*"],
    where_conditions := ["x = 1"], has_joins := false, joins := [],
    order_by := [], group_by := [], limit := none }

def stepsProjectOnly : List ExecutionStep :=
  [{ step_type := "PROJECT", description := "Projecting all columns",
     cost := 1/5, rows_processed := 20,
     details := [("columns", .list ["*"])] }]

/-- An analysis without WHERE conditions and a small plan, for which the
suggestion generator reports the well-optimized message. -/
def analysisNoWhere : Analysis :=
  { type := "SELECT", tables := ["users"], columns := ["*"],
    where_conditions := [], has_joins := false, joins := [],
    order_by := [], group_by := [], limit := none }

/-! ## Supporting lemmas -/

theorem startsList_iff (n : List Char) :
    ∀ h, startsList n h = true ↔ ∃ r, h = n ++ r := by
  induction n with
  | nil => intro h; simp [startsList]
  | cons a n ih =>
    intro h
    cases h with
    | nil => simp [startsList]
    | cons b t =>
      simp only [startsList, Bool.and_eq_true, decide_eq_true_eq, ih t,
        List.cons_append, List.cons.injEq]
      constructor
      · rintro ⟨rfl, r, rfl⟩; exact ⟨r, rfl, rfl⟩
      · rintro ⟨r, rfl, rfl⟩; exact ⟨rfl, r, rfl⟩

theorem containsSub_iff (n : List Char) :
    ∀ h, containsSub n h = true ↔ ∃ l r, h = l ++ n ++ r := by
  intro h
  induction h with
  | nil =>
    simp only [containsSub, startsList_iff]
    constructor
    · rintro ⟨r, hr⟩; exact ⟨[], r, by simpa using hr⟩
    · rintro ⟨l, r, hr⟩
      rw [List.append_assoc] at hr
      obtain ⟨hl, hnr⟩ := List.append_eq_nil.mp hr.symm
      obtain ⟨hn, hrr⟩ := List.append_eq_nil.mp hnr
      exact ⟨[], by simp [hn]⟩
  | cons c t ih =>
    simp only [containsSub, Bool.or_eq_true, startsList_iff, ih]
    constructor
    · rintro (⟨r, hr⟩ | ⟨l, r, rfl⟩)
      · exact ⟨[], r, by simpa using hr⟩
      · exact ⟨c :: l, r, rfl⟩
    · rintro ⟨l, r, hr⟩
      cases l with
      | nil => exact Or.inl ⟨r, by simpa using hr⟩
      | cons x l' =>
        right
        refine ⟨l', r, ?_⟩
        simpa using congrArg List.tail hr

theorem startsList_self_append (n z : List Char) :
    startsList n (n ++ z) = true := by
  rw [startsList_iff]; exact ⟨z, rfl⟩

theorem rdropWs_cons {c : Char} (h : pyWs c = false) (l : List Char) :
    rdropWs (c :: l) = c :: rdropWs l := by
  unfold rdropWs
  rw [List.reverse_cons, List.dropWhile_append]
  by_cases he : (List.dropWhile pyWs l.reverse).isEmpty
  · simp only [he, if_true]
    rw [List.isEmpty_iff] at he
    simp [List.dropWhile, h, he]
  · simp [he, List.reverse_append]

theorem rdropWs_append_of_ne (p l : List Char)
    (hp : ∀ c ∈ p, pyWs c = false) :
    rdropWs (p ++ l) = p ++ rdropWs l := by
  induction p with
  | nil => simp
  | cons c p ih =>
    rw [List.cons_append, rdropWs_cons (hp c (by simp)),
      ih (fun x hx => hp x (by simp [hx]))]
    rfl

theorem strStrip_cons_head {c : Char} (h : pyWs c = false) (l : List Char) :
    strStrip (c :: l) = c :: rdropWs l := by
  unfold strStrip
  rw [List.dropWhile_cons_of_neg (by simp [h]), rdropWs_cons h]

/-- Any statement built as a concrete non-whitespace-leading prefix plus an
arbitrary suffix strips and uppercases to that prefix (uppercased) plus a
rest. -/
theorem strUpper_strStrip_append (p l : List Char)
    (hp : ∀ c ∈ p, pyWs c = false) (hne : p ≠ []) :
    strUpper (strStrip (p ++ l)) = strUpper p ++ strUpper (rdropWs l) := by
  cases p with
  | nil => exact absurd rfl hne
  | cons c p' =>
    have hc : pyWs c = false := hp c (by simp)
    have hp' : ∀ x ∈ p', pyWs x = false := fun x hx => hp x (by simp [hx])
    rw [List.cons_append, strStrip_cons_head hc, rdropWs_append_of_ne p' l hp']
    simp [strUpper]

/-- Every `SELECT COUNT(*) FROM {t}` string hits the read branch of
`StorageEngine.execute`, whatever `t` is. -/
theorem isReadQuery_count (t : String) :
    isReadQuery ("SELECT COUNT(*) FROM " ++ t) = true := by
  have hd : ("SELECT COUNT(*) FROM " ++ t).data =
      "SELECT".data ++ (" COUNT(*) FROM ".data ++ t.data) := by
    rw [String.data_append]; rfl
  unfold isReadQuery
  rw [hd, strUpper_strStrip_append "SELECT".data _ (by decide) (by decide)]
  have h1 : strUpper "SELECT".data = "SELECT".data := by decide
  rw [h1]
  have h2 : startsList "SELECT".data
      ("SELECT".data ++ strUpper (rdropWs (" COUNT(*) FROM ".data ++ t.data))) = true :=
    startsList_self_append _ _
  simp only [Bool.or_eq_true]
  exact Or.inl (Or.inl h2)

/-- Every `PRAGMA index_list({t})` string hits the read branch of
`StorageEngine.execute`, whatever `t` is. -/
theorem isReadQuery_pragma (t : String) :
    isReadQuery ("PRAGMA index_list(" ++ t ++ ")") = true := by
  have hd : ("PRAGMA index_list(" ++ t ++ ")").data =
      "PRAGMA".data ++ (" index_list(".data ++ (t.data ++ ")".data)) := by
    rw [String.data_append, String.data_append]; simp
  unfold isReadQuery
  rw [hd, strUpper_strStrip_append "PRAGMA".data _ (by decide) (by decide)]
  have h1 : strUpper "PRAGMA".data = "PRAGMA".data := by decide
  rw [h1]
  have h2 : startsList "PRAGMA".data
      ("PRAGMA".data ++ strUpper (rdropWs (" index_list(".data ++ (t.data ++ ")".data)))) =
      true := startsList_self_append _ _
  simp only [Bool.or_eq_true]
  exact Or.inr h2

theorem engineExecute_state {σ : Type _} (red : σ → String → Option (List (List Nat)))
    (wrt : σ → String → σ) (st : σ) (q : String) (h : isReadQuery q = true) :
    engineExecute red wrt st q = (st, red st q) := by
  unfold engineExecute; rw [h]; rfl

theorem engineGetIndexes_state {σ : Type _} (red : σ → String → Option (List (List Nat)))
    (wrt : σ → String → σ) (st : σ) (t : String) :
    (engineGetIndexes red wrt st t).1 = st := by
  unfold engineGetIndexes
  by_cases ht : t.data.isEmpty
  · have hread : isReadQuery sqliteMasterIndexQuery = true := by decide
    rw [if_pos ht, engineExecute_state red wrt st _ hread]
  · rw [if_neg ht, engineExecute_state red wrt st _ (isReadQuery_pragma t)]

theorem estimateRows_state {σ : Type _} (red : σ → String → Option (List (List Nat)))
    (wrt : σ → String → σ) (st : σ) (t : String) (c : Bool) :
    estimateRows red wrt st t c = (st, estRowsOf (red st ("SELECT COUNT(*) FROM " ++ t)) c) := by
  unfold estimateRows
  rw [engineExecute_state _ _ _ _ (isReadQuery_count t)]

theorem scanLoop_state {σ : Type _} (red : σ → String → Option (List (List Nat)))
    (wrt : σ → String → σ) (wcne : Bool) :
    ∀ (ts : List String) (st : σ), (scanLoop red wrt wcne st ts).1 = st := by
  intro ts
  induction ts with
  | nil => intro st; rfl
  | cons t ts ih =>
    intro st
    unfold scanLoop
    rcases hg : engineGetIndexes red wrt st t with ⟨s1, idxRes⟩
    have hs1 : s1 = st := by
      have h := engineGetIndexes_state red wrt st t
      rw [hg] at h; exact h
    cases idxRes with
    | none => exact hs1
    | some idxs =>
      dsimp only
      rw [estimateRows_state, estimateRows_state]
      have hrec : ∀ (step : ExecutionStep),
          (match scanLoop red wrt wcne s1 ts with
           | (s3, none) => (s3, (none : Option (List ExecutionStep)))
           | (s3, some rest) => (s3, some (step :: rest))).1 = st := by
        intro step
        rcases hr : scanLoop red wrt wcne s1 ts with ⟨s3, r⟩
        have hs3 : s3 = s1 := by
          have h := ih s1; rw [hr] at h; exact h
        cases r <;> simpa using hs3.trans hs1
      by_cases hc : (decide (0 < idxs.length) && wcne) = true
      · simp only [hc, if_true]
        exact hrec _
      · simp only [hc, if_false]
        exact hrec _

theorem simulateSelect_state {σ : Type _} (red : σ → String → Option (List (List Nat)))
    (wrt : σ → String → σ) (st : σ) (a : Analysis) :
    (simulateSelect red wrt st a).1 = st := by
  unfold simulateSelect
  by_cases he : a.tables.isEmpty
  · rw [if_pos he]
  · rw [if_neg he]
    rcases hr : scanLoop red wrt (!a.where_conditions.isEmpty) st a.tables with ⟨s, r⟩
    have hs : s = st := by
      have h := scanLoop_state red wrt (!a.where_conditions.isEmpty) a.tables st
      rw [hr] at h; exact h
    cases r <;> exact hs

theorem simulateUpdate_state {σ : Type _} (red : σ → String → Option (List (List Nat)))
    (wrt : σ → String → σ) (st : σ) (a : Analysis) :
    (simulateUpdate red wrt st a).1 = st := by
  unfold simulateUpdate
  cases a.tables.head? with
  | none => rfl
  | some t =>
    dsimp only
    rw [estimateRows_state]

theorem simulateDelete_state {σ : Type _} (red : σ → String → Option (List (List Nat)))
    (wrt : σ → String → σ) (st : σ) (a : Analysis) :
    (simulateDelete red wrt st a).1 = st := by
  unfold simulateDelete
  cases a.tables.head? with
  | none => rfl
  | some t =>
    dsimp only
    rw [estimateRows_state]

/-- **C10.**  The method `simulate()` issues only read-result statements to the storage
collaborator (`SELECT COUNT(*)` row counts and `PRAGMA index_list` /
`sqlite_master` index lookups), so for every query string, every read
oracle, every write semantics and every starting database state, the
database state observable through the storage engine after a `simulate`
call is exactly the state before it. -/
theorem simulate_readonly {σ : Type _} (red : σ → String → Option (List (List Nat)))
    (wrt : σ → String → σ) (st : σ) (q : String) :
    (simulateState red wrt st q).1 = st := by
  unfold simulateState
  cases analyzeQ q with
  | none => rfl
  | some a =>
    dsimp only
    by_cases h1 : a.type = "SELECT"
    · rw [if_pos h1]; exact simulateSelect_state red wrt st a
    · rw [if_neg h1]
      by_cases h2 : a.type = "INSERT"
      · rw [if_pos h2]
      · rw [if_neg h2]
        by_cases h3 : a.type = "UPDATE"
        · rw [if_pos h3]; exact simulateUpdate_state red wrt st a
        · rw [if_neg h3]
          by_cases h4 : a.type = "DELETE"
          · rw [if_pos h4]; exact simulateDelete_state red wrt st a
          · rw [if_neg h4]

/-! ### The select pipeline over a stateless oracle -/

theorem engineGetIndexes_unit (ans : String → Option (List (List Nat)))
    (t : String) :
    engineGetIndexes (fun (_ : Unit) s => ans s) (fun u _ => u) () t =
      ((), if t.data.isEmpty then ans sqliteMasterIndexQuery
           else ans ("PRAGMA index_list(" ++ t ++ ")")) := by
  unfold engineGetIndexes
  by_cases ht : t.data.isEmpty
  · have hread : isReadQuery sqliteMasterIndexQuery = true := by decide
    rw [if_pos ht, if_pos ht, engineExecute_state _ _ _ _ hread]
  · rw [if_neg ht, if_neg ht, engineExecute_state _ _ _ _ (isReadQuery_pragma t)]

theorem scanLoop_unit (ans : String → Option (List (List Nat))) (wcne : Bool) :
    ∀ ts : List String,
      scanLoop (fun (_ : Unit) s => ans s) (fun u _ => u) wcne () ts =
        ((), optMapM (scanStepO ans wcne) ts) := by
  intro ts
  induction ts with
  | nil => rfl
  | cons t ts ih =>
    conv_rhs => rw [optMapM]
    unfold scanLoop
    rw [engineGetIndexes_unit]
    dsimp only
    cases hidx : (if t.data.isEmpty then ans sqliteMasterIndexQuery
                  else ans ("PRAGMA index_list(" ++ t ++ ")")) with
    | none =>
      have hstep : scanStepO ans wcne t = none := by
        unfold scanStepO; rw [hidx]
      rw [hstep]
    | some idxs =>
      rw [estimateRows_state, estimateRows_state]
      dsimp only
      by_cases hc : (decide (0 < idxs.length) && wcne) = true
      · have hstep : scanStepO ans wcne t =
            some (indexScanRec t (estRowsOf (ans ("SELECT COUNT(*) FROM " ++ t)) true)) := by
          unfold scanStepO; rw [hidx]; dsimp only; rw [if_pos hc]
        rw [if_pos hc, hstep, ih]
        cases optMapM (scanStepO ans wcne) ts <;> rfl
      · have hstep : scanStepO ans wcne t =
            some (tableScanRec t (estRowsOf (ans ("SELECT COUNT(*) FROM " ++ t)) false)) := by
          unfold scanStepO; rw [hidx]; dsimp only; rw [if_neg hc]
        rw [if_neg hc, hstep, ih]
        cases optMapM (scanStepO ans wcne) ts <;> rfl

/-- The whole observable behaviour of `simulate` on a SELECT analysis. -/
theorem simulateO_select (ans : String → Option (List (List Nat)))
    (q : String) (a : Analysis) (ha : analyzeQ q = some a)
    (hty : a.type = "SELECT") :
    simulateO ans q =
      if a.tables.isEmpty then some []
      else (optMapM (scanStepO ans (!a.where_conditions.isEmpty)) a.tables).map
        (fun scans => scans ++ tailSteps a) := by
  unfold simulateO simulateState
  rw [ha]
  dsimp only
  rw [if_pos hty]
  unfold simulateSelect
  by_cases he : a.tables.isEmpty
  · rw [if_pos he, if_pos he]
  · rw [if_neg he, if_neg he, scanLoop_unit]
    cases optMapM (scanStepO ans (!a.where_conditions.isEmpty)) a.tables <;> rfl

theorem optMapM_length {α β : Type _} (f : α → Option β) :
    ∀ (ts : List α) (l : List β), optMapM f ts = some l → l.length = ts.length := by
  intro ts
  induction ts with
  | nil => intro l h; cases h; rfl
  | cons t ts ih =>
    intro l h
    unfold optMapM at h
    cases hb : f t with
    | none => rw [hb] at h; cases h
    | some b =>
      rw [hb] at h
      cases hl : optMapM f ts with
      | none => rw [hl] at h; cases h
      | some bs => rw [hl] at h; cases h; simp [ih bs hl]

theorem optMapM_get {α β : Type _} (f : α → Option β) (d : α) :
    ∀ (ts : List α) (l : List β) (i : Nat), optMapM f ts = some l →
      i < ts.length → l.get? i = f (ts.getD i d) := by
  intro ts
  induction ts with
  | nil => intro l i _ hi; simp at hi
  | cons t ts ih =>
    intro l i h hi
    unfold optMapM at h
    cases hb : f t with
    | none => rw [hb] at h; cases h
    | some b =>
      rw [hb] at h
      cases hl : optMapM f ts with
      | none => rw [hl] at h; cases h
      | some bs =>
        rw [hl] at h; cases h
        cases i with
        | zero => simp [hb]
        | succ j =>
          have hj : j < ts.length := by simpa using hi
          simpa using ih bs j hl hj

theorem optMapM_mem {α β : Type _} (f : α → Option β) :
    ∀ (ts : List α) (l : List β), optMapM f ts = some l →
      ∀ b ∈ l, ∃ a ∈ ts, f a = some b := by
  intro ts
  induction ts with
  | nil => intro l h b hb; cases h; simp at hb
  | cons t ts ih =>
    intro l h b hb
    unfold optMapM at h
    cases hfb : f t with
    | none => rw [hfb] at h; cases h
    | some b' =>
      rw [hfb] at h
      cases hl : optMapM f ts with
      | none => rw [hl] at h; cases h
      | some bs =>
        rw [hl] at h; cases h
        rcases List.mem_cons.mp hb with rfl | hmem
        · exact ⟨t, by simp, hfb⟩
        · obtain ⟨a, ha, hfa⟩ := ih bs hl b hmem
          exact ⟨a, by simp [ha], hfa⟩

theorem optMapM_isSome {α β : Type _} (f : α → Option β) :
    ∀ (ts : List α) (l : List β), optMapM f ts = some l →
      ∀ a ∈ ts, ∃ b, f a = some b := by
  intro ts
  induction ts with
  | nil => intro l _ a ha; simp at ha
  | cons t ts ih =>
    intro l h a ha
    unfold optMapM at h
    cases hfb : f t with
    | none => rw [hfb] at h; cases h
    | some b' =>
      rw [hfb] at h
      cases hl : optMapM f ts with
      | none => rw [hl] at h; cases h
      | some bs =>
        rcases List.mem_cons.mp ha with rfl | hmem
        · exact ⟨b', hfb⟩
        · exact ih bs hl a hmem

/-! ### Table names extracted by `get_tables` are nonempty identifiers -/

theorem parseWordPlus_ne {s : List Char} {w r : List Char}
    (h : parseWordPlus s = some (w, r)) : w ≠ [] := by
  unfold parseWordPlus at h
  cases s with
  | nil => cases h
  | cons c t =>
    dsimp only at h
    by_cases hc : wordChar c = true
    · rw [if_pos hc] at h
      simp only [Option.some.injEq, Prod.mk.injEq] at h
      rw [← h.1, List.takeWhile_cons_of_pos hc]
      simp
    · rw [if_neg hc] at h; cases h

theorem tryFromAt_ne {s : List Char} {t : List Char}
    (h : tryFromAt s = some t) : t ≠ [] := by
  unfold tryFromAt at h
  simp only [Option.bind_eq_bind, Option.bind_eq_some] at h
  obtain ⟨s1, h1, s2, h2, ⟨tbl, s3⟩, h3, h⟩ := h
  have htbl : tbl ≠ [] := parseWordPlus_ne h3
  split at h
  · cases h; exact htbl
  · split at h
    · cases h; exact htbl
    · cases h

theorem searchFrom_ne : ∀ {s : List Char} {t : List Char},
    searchFrom s = some t → t ≠ [] := by
  intro s
  induction s with
  | nil => intro t h; cases h
  | cons c cs ih =>
    intro t h
    unfold searchFrom at h
    cases hf : tryFromAt (c :: cs) with
    | some w => rw [hf] at h; cases h; exact tryFromAt_ne hf
    | none => rw [hf] at h; exact ih h

theorem tryJoinTblCore_ne {s : List Char} {t r : List Char}
    (h : tryJoinTblCore s = some (t, r)) : t ≠ [] := by
  unfold tryJoinTblCore at h
  simp only [Option.bind_eq_bind, Option.bind_eq_some] at h
  obtain ⟨s1, h1, s2, h2, s3, h3, ⟨tbl, s4⟩, h4, h⟩ := h
  have htbl : tbl ≠ [] := parseWordPlus_ne h4
  split at h
  · simp only [Option.some.injEq, Prod.mk.injEq] at h
    rw [← h.1]; exact htbl
  · simp only [Option.bind_eq_bind, Option.bind_eq_some] at h
    obtain ⟨rest, hrest, h⟩ := h
    simp only [Option.some.injEq, Prod.mk.injEq] at h
    rw [← h.1]; exact htbl

theorem tryJoinTblAt_ne {s : List Char} {t r : List Char}
    (h : tryJoinTblAt s = some (t, r)) : t ≠ [] := by
  unfold tryJoinTblAt at h
  rcases hk : ["INNER", "LEFT", "RIGHT", "FULL", "OUTER"].find?
      (fun k => startsList k.data s) with _ | k
  · rw [hk] at h; dsimp only at h; exact tryJoinTblCore_ne h
  · rw [hk] at h
    dsimp only at h
    rcases hc : tryJoinTblCore (s.drop k.length) with _ | r'
    · rw [hc] at h; dsimp only at h; exact tryJoinTblCore_ne h
    · rw [hc] at h
      dsimp only at h
      rcases r' with ⟨t', r''⟩
      cases h
      exact tryJoinTblCore_ne hc

theorem joinTblScan_ne : ∀ (f : Nat) (s : List Char) (t : List Char),
    t ∈ joinTblScan f s → t ≠ [] := by
  intro f
  induction f with
  | zero => intro s t ht; simp [joinTblScan] at ht
  | succ f ih =>
    intro s t ht
    cases s with
    | nil => simp [joinTblScan] at ht
    | cons c cs =>
      unfold joinTblScan at ht
      rcases hj : tryJoinTblAt (c :: cs) with _ | ⟨tbl, rest⟩
      · rw [hj] at ht; exact ih cs t ht
      · rw [hj] at ht
        rcases List.mem_cons.mp ht with rfl | hmem
        · exact tryJoinTblAt_ne hj
        · exact ih rest t hmem

theorem tryKwAt_ne {k1 : List Char} {k2 : Option (List Char)} {s : List Char}
    {t : List Char} (h : tryKwAt k1 k2 s = some t) : t ≠ [] := by
  unfold tryKwAt at h
  cases k2 with
  | none =>
    simp only [Option.bind_eq_bind, Option.bind_eq_some, Option.some.injEq] at h
    obtain ⟨s1, h1, s2, h2, s3, hs3, d, hd, hdt⟩ := h
    exact hdt ▸ parseWordPlus_ne hd
  | some k =>
    simp only [Option.bind_eq_bind, Option.bind_eq_some, Option.some.injEq] at h
    obtain ⟨s1, h1, s2, h2, s3, h3, s4, h4, d, hd, hdt⟩ := h
    exact hdt ▸ parseWordPlus_ne hd

theorem searchKwTable_ne {k1 : List Char} {k2 : Option (List Char)} :
    ∀ {s : List Char} {t : List Char}, searchKwTable k1 k2 s = some t → t ≠ [] := by
  intro s
  induction s with
  | nil => intro t h; cases h
  | cons c cs ih =>
    intro t h
    unfold searchKwTable at h
    rcases hk : tryKwAt k1 k2 (c :: cs) with _ | w
    · rw [hk] at h; exact ih h
    · rw [hk] at h; cases h; exact tryKwAt_ne hk

theorem mem_insertSorted {x y : String} :
    ∀ {l : List String}, y ∈ insertSorted x l → y = x ∨ y ∈ l := by
  intro l
  induction l with
  | nil => intro h; simpa [insertSorted] using h
  | cons z t ih =>
    intro h
    unfold insertSorted at h
    by_cases hle : strLe x.data z.data = true
    · rw [if_pos hle] at h
      rcases List.mem_cons.mp h with rfl | hm
      · exact Or.inl rfl
      · exact Or.inr hm
    · rw [if_neg hle] at h
      rcases List.mem_cons.mp h with rfl | hm
      · exact Or.inr (by simp)
      · rcases ih hm with rfl | hm2
        · exact Or.inl rfl
        · exact Or.inr (by simp [hm2])

theorem mem_sortStrings {y : String} :
    ∀ {l : List String}, y ∈ sortStrings l → y ∈ l := by
  intro l
  induction l with
  | nil => intro h; simp [sortStrings] at h
  | cons x t ih =>
    intro h
    rcases mem_insertSorted (x := x) (l := sortStrings t) h with rfl | hm
    · simp
    · simp [ih hm]

theorem mem_dedupStr {y : String} :
    ∀ {l : List String}, y ∈ dedupStr l → y ∈ l := by
  intro l
  induction l with
  | nil => intro h; simp [dedupStr] at h
  | cons x t ih =>
    intro h
    unfold dedupStr at h
    by_cases hc : t.contains x = true
    · rw [if_pos hc] at h; simp [ih h]
    · rw [if_neg hc] at h
      rcases List.mem_cons.mp h with rfl | hm
      · simp
      · simp [ih hm]

theorem strMk_ne_empty {l : List Char} (h : l ≠ []) : (⟨l⟩ : String) ≠ "" := by
  intro he
  exact h (congrArg String.data he)

theorem strLower_ne {l : List Char} (h : l ≠ []) : strLower l ≠ [] := by
  simpa [strLower] using h

/-- Every table name produced by `get_tables` is a nonempty identifier. -/
theorem getTablesCore_ne (q : List Char) :
    ∀ x ∈ getTablesCore q, x ≠ "" := by
  intro x hx
  unfold getTablesCore at hx
  have hx2 := mem_dedupStr (mem_sortStrings hx)
  intro hempty
  subst hempty
  rcases List.mem_append.mp hx2 with hm | hdml
  · rcases List.mem_append.mp hm with hfrom | hjoin
    · rcases hsf : searchFrom (strUpper q) with _ | t
      · rw [hsf] at hfrom; simp at hfrom
      · rw [hsf] at hfrom
        simp only [List.mem_singleton] at hfrom
        exact strMk_ne_empty (strLower_ne (searchFrom_ne hsf)) hfrom.symm
    · simp only [List.mem_map] at hjoin
      obtain ⟨t, ht, heq⟩ := hjoin
      exact strMk_ne_empty (strLower_ne (joinTblScan_ne _ _ t ht)) heq
  · have key : ∀ (res : Option (List Char)),
        (∀ t, res = some t → t ≠ []) →
        ("" : String) ∈ (match res with
          | some t => [(⟨t⟩ : String)] | none => ([] : List String)) → False := by
      intro res hres hmem
      cases res with
      | none => simp at hmem
      | some t =>
        simp only [List.mem_singleton] at hmem
        exact strMk_ne_empty (hres t rfl) hmem.symm
    by_cases h1 : containsSub "INSERT INTO".data (strUpper q) = true
    · rw [if_pos h1] at hdml
      exact key _ (fun t ht => searchKwTable_ne ht) hdml
    · rw [if_neg h1] at hdml
      by_cases h2 : containsSub "UPDATE".data (strUpper q) = true
      · rw [if_pos h2] at hdml
        exact key _ (fun t ht => searchKwTable_ne ht) hdml
      · rw [if_neg h2] at hdml
        by_cases h3 : containsSub "DELETE FROM".data (strUpper q) = true
        · rw [if_pos h3] at hdml
          exact key _ (fun t ht => searchKwTable_ne ht) hdml
        · rw [if_neg h3] at hdml; simp at hdml

/-! ### Occurrences of whitespace-free patterns survive `strip` -/

theorem strStrip_sandwich (s : List Char) :
    ∃ p t, s = p ++ strStrip s ++ t ∧ (∀ c ∈ p, pyWs c = true) ∧
      (∀ c ∈ t, pyWs c = true) := by
  refine ⟨s.takeWhile pyWs, ((s.dropWhile pyWs).reverse.takeWhile pyWs).reverse,
    ?_, ?_, ?_⟩
  · conv_lhs => rw [← List.takeWhile_append_dropWhile (p := pyWs) (l := s)]
    rw [List.append_assoc]
    congr 1
    conv_lhs => rw [← List.reverse_reverse (s.dropWhile pyWs),
      ← List.takeWhile_append_dropWhile (p := pyWs)
        (l := (s.dropWhile pyWs).reverse), List.reverse_append]
    rfl
  · intro c hc; exact List.mem_takeWhile_imp hc
  · intro c hc; rw [List.mem_reverse] at hc; exact List.mem_takeWhile_imp hc

theorem upChar_of_ws {c : Char} (h : pyWs c = true) : upChar c = c := by
  simp only [pyWs, Bool.or_eq_true, decide_eq_true_eq] at h
  rcases h with ((((rfl | rfl) | rfl) | rfl) | rfl) | rfl <;> decide

theorem strUpper_of_ws {p : List Char} (h : ∀ c ∈ p, pyWs c = true) :
    strUpper p = p := by
  induction p with
  | nil => rfl
  | cons c t ih =>
    simp only [strUpper, List.map_cons]
    rw [upChar_of_ws (h c (by simp))]
    have := ih (fun x hx => h x (by simp [hx]))
    simp only [strUpper] at this
    rw [this]

theorem occ_through_ws_left {pat mid : List Char}
    (hpat : ∀ c ∈ pat, pyWs c = false) (hne : pat ≠ []) :
    ∀ pre, (∀ c ∈ pre, pyWs c = true) →
      (∃ l r, pre ++ mid = l ++ pat ++ r) → ∃ l r, mid = l ++ pat ++ r := by
  intro pre
  induction pre with
  | nil => intro _ h; simpa using h
  | cons c p ih =>
    intro hpre h
    obtain ⟨l, r, hlr⟩ := h
    cases l with
    | nil =>
      cases pat with
      | nil => exact absurd rfl hne
      | cons a pa =>
        simp only [List.nil_append, List.cons_append, List.cons.injEq] at hlr
        have h1 : pyWs c = true := hpre c (by simp)
        rw [hlr.1, hpat a (by simp)] at h1
        cases h1
    | cons x l' =>
      simp only [List.cons_append, List.cons.injEq] at hlr
      exact ih (fun d hd => hpre d (by simp [hd])) ⟨l', r, hlr.2⟩

theorem occ_through_ws_right {pat mid suf : List Char}
    (hpat : ∀ c ∈ pat, pyWs c = false) (hne : pat ≠ [])
    (hsuf : ∀ c ∈ suf, pyWs c = true)
    (h : ∃ l r, mid ++ suf = l ++ pat ++ r) : ∃ l r, mid = l ++ pat ++ r := by
  have h' : ∃ l r, suf.reverse ++ mid.reverse = l ++ pat.reverse ++ r := by
    obtain ⟨l, r, hlr⟩ := h
    refine ⟨r.reverse, l.reverse, ?_⟩
    have := congrArg List.reverse hlr
    simpa [List.reverse_append, List.append_assoc] using this
  have h2 := @occ_through_ws_left pat.reverse mid.reverse
    (fun c hc => hpat c (List.mem_reverse.mp hc)) (by simpa using hne)
    suf.reverse (fun c hc => hsuf c (List.mem_reverse.mp hc)) h'
  obtain ⟨l, r, hlr⟩ := h2
  refine ⟨r.reverse, l.reverse, ?_⟩
  have := congrArg List.reverse hlr
  simpa [List.reverse_append, List.append_assoc] using this

/-! ## The claims -/

/-- Claim C1 (code bug).  The spec requires `analyze()`/`simulate()` never to
raise, but an ORDER BY clause with an empty comma segment makes
`get_order_by` evaluate `[].split()[0]`, raising `IndexError` (modelled by
`none`), which propagates through `analyze()` and `simulate()`. -/
theorem c1_analyze_raises_on_empty_order_by_segment :
    getOrderByQ "SELECT * FROM t ORDER BY a,,b" = none ∧
    analyzeQ "SELECT * FROM t ORDER BY a,,b" = none ∧
    simulateO ansEmpty "SELECT * FROM t ORDER BY a,,b" = none :=
  ⟨by decide, by decide, by decide⟩

/-- Claim C4 (code bug).  The FROM/JOIN targets are lower-cased, but the
`INSERT INTO`/`UPDATE`/`DELETE FROM` branches add the match from the
uppercased query without `.lower()`, so `get_tables` returns an uppercase
name for an INSERT, against the claimed all-lowercase contract (the first
conjunct shows the FROM path lower-casing and ignoring the alias as
claimed; the last shows the same query with a DELETE keyword yielding the
same table twice in two casings). -/
theorem c4_insert_target_not_lowercased :
    getTablesQ "SELECT * FROM users u WHERE x = 1" = ["users"] ∧
    getTablesQ "INSERT INTO users VALUES (1)" = ["USERS"] ∧
    getTablesQ "DELETE FROM users WHERE id = 1" = ["USERS", "users"] :=
  ⟨by decide, by decide, by decide⟩

/-- Claim C5 (code bug).  In the regex `(\w+\s+)?JOIN\s+(\w+)` the optional group
greedily captures whatever word precedes `JOIN` — for an unqualified join
that word is the left table name, so the join type reported for
`SELECT * FROM a JOIN b ON a.id=b.id` is `"A"`, not the claimed default
`INNER` (the default only fires when no word+whitespace precedes `JOIN`). -/
theorem c5_join_type_captures_preceding_word :
    getJoinInfoQ "SELECT * FROM a JOIN b ON a.id=b.id" = [("A", "b")] ∧
    getJoinInfoQ "SELECT * FROM a INNER JOIN b ON a.id=b.id" = [("INNER", "b")] :=
  ⟨by decide, by decide⟩

/-- Claim C6 (confirmed).  The method `has_joins` is true exactly when one of the
JOIN-keyword variants occurs as a substring of the uppercased query text
(the check is substring-based; stripping the surrounding whitespace that
`__init__` removes can neither create nor destroy such an occurrence). -/
theorem c6_has_joins_iff_variant_present (q : String) :
    hasJoinsQ q = true ↔
      ∃ v ∈ joinKeywordVariants, ∃ l r, strUpper q.data = l ++ v.data ++ r := by
  unfold hasJoinsQ hasJoinsCore
  obtain ⟨p, t, hs, hp, ht⟩ := strStrip_sandwich q.data
  have hdec : strUpper q.data = p ++ strUpper (strStrip q.data) ++ t := by
    have h1 := congrArg strUpper hs
    have h2 : strUpper (p ++ strStrip q.data ++ t) =
        strUpper p ++ strUpper (strStrip q.data) ++ strUpper t := by
      simp [strUpper]
    rw [h2, strUpper_of_ws hp, strUpper_of_ws ht] at h1
    exact h1
  constructor
  · intro h
    by_cases hq : (strStrip q.data).isEmpty
    · rw [if_pos hq] at h; cases h
    · rw [if_neg hq, List.any_eq_true] at h
      obtain ⟨v, hv, hcv⟩ := h
      rw [containsSub_iff] at hcv
      obtain ⟨l, r, hlr⟩ := hcv
      refine ⟨v, ?_, p ++ l, r ++ t, ?_⟩
      · fin_cases hv <;> simp [joinKeywordVariants]
      · rw [hdec, hlr]; simp [List.append_assoc]
  · rintro ⟨v, hv, l, r, hlr⟩
    have hJOINv : ∃ l2 r2, (v.data : List Char) = l2 ++ "JOIN".data ++ r2 := by
      fin_cases hv
      · exact ⟨[], [], rfl⟩
      · exact ⟨"INNER ".data, [], by decide⟩
      · exact ⟨"LEFT ".data, [], by decide⟩
      · exact ⟨"RIGHT ".data, [], by decide⟩
      · exact ⟨"FULL ".data, [], by decide⟩
      · exact ⟨"OUTER ".data, [], by decide⟩
    obtain ⟨l2, r2, hv2⟩ := hJOINv
    have hocc : ∃ l3 r3,
        p ++ (strUpper (strStrip q.data) ++ t) = l3 ++ "JOIN".data ++ r3 := by
      refine ⟨l ++ l2, r2 ++ r, ?_⟩
      rw [← List.append_assoc, ← hdec, hlr, hv2]
      simp [List.append_assoc]
    have hpatJ : ∀ c ∈ ("JOIN".data : List Char), pyWs c = false := by decide
    have hneJ : ("JOIN".data : List Char) ≠ [] := by decide
    have hocc2 := occ_through_ws_left hpatJ hneJ p hp hocc
    have hocc3 := occ_through_ws_right hpatJ hneJ ht hocc2
    have hne : ¬ (strStrip q.data).isEmpty = true := by
      intro he
      rw [List.isEmpty_iff] at he
      obtain ⟨l3, r3, h3⟩ := hocc3
      rw [he] at h3
      simp [strUpper] at h3
    rw [if_neg hne, List.any_eq_true]
    exact ⟨"JOIN", by simp, (containsSub_iff _ _).mpr hocc3⟩

/-- Claim C7 (code bug).  The alias detection `' AS ' in col.upper()` is
case-insensitive but the removal `col.split(' AS ')` is case-sensitive:
with a lowercase `as` the alias branch fires yet strips nothing, so the
whole aliased expression is returned instead of the claimed base
expression `name` (the first three conjuncts are the claim's own examples,
which hold). -/
theorem c7_lowercase_as_alias_not_stripped :
    getColumnsQ "SELECT * FROM users" = ["*"] ∧
    getColumnsQ "SELECT name, age FROM users" = ["name", "age"] ∧
    getColumnsQ "SELECT name AS n FROM users" = ["name"] ∧
    getColumnsQ "SELECT name as n FROM users" = ["name   as   n"] :=
  ⟨by decide, by decide, by decide, by decide⟩

theorem analyzeQ_tables {q : String} {a : Analysis} (h : analyzeQ q = some a) :
    a.tables = getTablesCore (strStrip q.data) := by
  unfold analyzeQ analyzeCore at h
  simp only [Option.bind_eq_bind, Option.bind_eq_some, Option.pure_def,
    Option.some.injEq] at h
  obtain ⟨ob, hob, gb, hgb, ha⟩ := h
  rw [← ha]

theorem getD_mem_of_lt {l : List String} {n : Nat} (h : n < l.length) :
    l.getD n "" ∈ l := by
  rw [List.getD_eq_getElem?_getD, List.getElem?_eq_getElem h]
  exact List.getElem_mem h

/-- Claim C2 (confirmed).  For a SELECT query, the `i`-th emitted step is the
scan for the `i`-th referenced table: an `INDEX_SCAN` exactly when the
table's `PRAGMA index_list` lookup returns at least one row AND WHERE
conditions are present, with `rows_processed = max 1 (mul03 n)` (the
Python `max(1, int(0.3 * n))`) on a successful `COUNT(*)` of `n`; else a
`TABLE_SCAN` with the full count; and a failing count lookup yields the
fixed default 100 while `simulate()` still returns a plan. -/
theorem c2_scan_step_characterisation (ans : String → Option (List (List Nat)))
    (q : String) (a : Analysis) (steps : List ExecutionStep) (i : Nat)
    (ha : analyzeQ q = some a) (hty : a.type = "SELECT")
    (hs : simulateO ans q = some steps) (hi : i < a.tables.length) :
    ∃ idxRows s,
      ans ("PRAGMA index_list(" ++ a.tables.getD i "" ++ ")") = some idxRows ∧
      steps.get? i = some s ∧
      (s.step_type = "INDEX_SCAN" ↔ (idxRows ≠ [] ∧ a.where_conditions ≠ [])) ∧
      (s.step_type = "INDEX_SCAN" ∨ s.step_type = "TABLE_SCAN") ∧
      (∀ n, ans ("SELECT COUNT(*) FROM " ++ a.tables.getD i "") = some [[n]] →
        s.rows_processed =
          if idxRows ≠ [] ∧ a.where_conditions ≠ [] then max 1 (mul03 n) else n) ∧
      (ans ("SELECT COUNT(*) FROM " ++ a.tables.getD i "") = none →
        s.rows_processed = 100) := by
  have htne : a.tables.getD i "" ≠ "" := by
    have hall : ∀ x ∈ a.tables, x ≠ "" := by
      rw [analyzeQ_tables ha]; exact getTablesCore_ne _
    exact hall _ (getD_mem_of_lt hi)
  have htE : (a.tables.getD i "").data.isEmpty = false := by
    cases hE : (a.tables.getD i "").data.isEmpty
    · rfl
    · rw [List.isEmpty_iff] at hE
      exact absurd (String.ext hE) htne
  rw [simulateO_select ans q a ha hty] at hs
  have hne : ¬ a.tables.isEmpty = true := by
    rw [List.isEmpty_iff]
    exact List.ne_nil_of_length_pos (Nat.lt_of_le_of_lt (Nat.zero_le i) hi)
  rw [if_neg hne] at hs
  cases hm : optMapM (scanStepO ans (!a.where_conditions.isEmpty)) a.tables with
  | none => rw [hm] at hs; cases hs
  | some scans =>
    rw [hm] at hs
    simp only [Option.map_some', Option.some.injEq] at hs
    have hlen : scans.length = a.tables.length := optMapM_length _ _ _ hm
    have hget : scans.get? i =
        scanStepO ans (!a.where_conditions.isEmpty) (a.tables.getD i "") :=
      optMapM_get _ "" _ _ i hm hi
    have hsteps : steps.get? i = scans.get? i := by
      rw [← hs]
      exact List.get?_append (hlen ▸ hi)
    unfold scanStepO at hget
    rw [htE] at hget
    simp only [Bool.false_eq_true, if_false] at hget
    cases hidx : ans ("PRAGMA index_list(" ++ a.tables.getD i "" ++ ")") with
    | none =>
      rw [hidx] at hget
      have : scans.get? i = none := hget
      rw [List.get?_eq_get (hlen ▸ hi)] at this
      cases this
    | some idxRows =>
      rw [hidx] at hget
      dsimp only at hget
      have hbool : ((decide (0 < idxRows.length) && !a.where_conditions.isEmpty) = true) ↔
          (idxRows ≠ [] ∧ a.where_conditions ≠ []) := by
        simp [List.length_pos, List.isEmpty_iff]
      by_cases hcond : idxRows ≠ [] ∧ a.where_conditions ≠ []
      · rw [if_pos (hbool.mpr hcond)] at hget
        refine ⟨idxRows, _, rfl, hsteps.trans hget, ?_, Or.inl rfl, ?_, ?_⟩
        · simp [indexScanRec, hcond]
        · intro n hn
          rw [if_pos hcond]
          simp only [indexScanRec]
          rw [hn]
          rfl
        · intro hn
          simp only [indexScanRec]
          rw [hn]
          rfl
      · rw [if_neg (fun hb => hcond (hbool.mp hb))] at hget
        refine ⟨idxRows, _, rfl, hsteps.trans hget, ?_, Or.inr rfl, ?_, ?_⟩
        · simp only [tableScanRec]
          constructor
          · intro h; exact absurd h (by decide)
          · intro h; exact absurd h hcond
        · intro n hn
          rw [if_neg hcond]
          simp only [tableScanRec]
          rw [hn]
          rfl
        · intro hn
          simp only [tableScanRec]
          rw [hn]
          rfl

/-- Witness for C2: the spec's §8 scenario — `users` with one index and 8
rows; the scan step is an `INDEX_SCAN` with `rows_processed = 2`. -/
theorem c2_scan_step_characterisation_witness :
    ∃ idxRows s,
      ansUsers8 ("PRAGMA index_list(" ++ "users" ++ ")") = some idxRows ∧
      [indexScanRec "users" 2,
       { step_type := "FILTER"
         description := "Applying WHERE filter: age   >   25"
         cost := 3/10
         rows_processed := 30
         details := [("conditions", .list ["age   >   25"])] },
       { step_type := "PROJECT"
         description := "Projecting all columns"
         cost := 1/5
         rows_processed := 20
         details := [("columns", .list ["*"])] }].get? 0 = some s ∧
      (s.step_type = "INDEX_SCAN" ↔ (idxRows ≠ [] ∧ (["age   >   25"] : List String) ≠ [])) ∧
      (s.step_type = "INDEX_SCAN" ∨ s.step_type = "TABLE_SCAN") ∧
      (∀ n, ansUsers8 ("SELECT COUNT(*) FROM " ++ "users") = some [[n]] →
        s.rows_processed =
          if idxRows ≠ [] ∧ (["age   >   25"] : List String) ≠ [] then max 1 (mul03 n) else n) ∧
      (ansUsers8 ("SELECT COUNT(*) FROM " ++ "users") = none →
        s.rows_processed = 100) :=
  c2_scan_step_characterisation ansUsers8 "SELECT * FROM users WHERE age > 25"
    { type := "SELECT", tables := ["users"], columns := ["*"],
      where_conditions := ["age   >   25"], has_joins := false, joins := [],
      order_by := [], group_by := [], limit := none }
    _ 0 (by decide) rfl rfl (by decide)

/-- Claim C3 counterexample.  The query `SELECT 1` is a SELECT query, but with no
referenced table `_simulate_select` returns an empty plan — no PROJECT
step at all; and for `SELECT * FROM t LIMIT 0` the limit is parsed (as 0)
yet the plan contains no LIMIT step, because `if analysis['limit']:` is
Python-falsy for 0. -/
theorem c3_select_order_counterexample :
    simulateO ansEmpty "SELECT 1" = some [] ∧
    (analyzeQ "SELECT * FROM t LIMIT 0").map Analysis.limit = some (some 0) ∧
    simulateO ansEmpty "SELECT * FROM t LIMIT 0" =
      some [tableScanRec "t" 100,
            { step_type := "PROJECT"
              description := "Projecting all columns"
              cost := 1/5
              rows_processed := 20
              details := [("columns", .list ["*"])] }] :=
  ⟨by decide, by decide, rfl⟩

/-- Claim C3 (corrected).  For every SELECT query referencing at least one
table, the plan is: one scan step per referenced table, then the JOIN
steps (one per descriptor, when `has_joins`), then one FILTER step (when
WHERE conditions exist), one GROUP step (when grouping), one SORT step
(when ordering), one LIMIT step (when the parsed limit is set and
nonzero), and exactly one final PROJECT step. -/
theorem c3_select_step_order (ans : String → Option (List (List Nat)))
    (q : String) (a : Analysis) (steps : List ExecutionStep)
    (ha : analyzeQ q = some a) (hty : a.type = "SELECT")
    (ht : a.tables ≠ []) (hs : simulateO ans q = some steps) :
    ∃ scans js fs gs ss ls ps,
      steps = scans ++ js ++ fs ++ gs ++ ss ++ ls ++ [ps] ∧
      scans.length = a.tables.length ∧
      (∀ s ∈ scans, s.step_type = "INDEX_SCAN" ∨ s.step_type = "TABLE_SCAN") ∧
      js.length = (if a.has_joins then a.joins.length else 0) ∧
      (∀ s ∈ js, s.step_type = "JOIN") ∧
      fs.length = (if a.where_conditions = [] then 0 else 1) ∧
      (∀ s ∈ fs, s.step_type = "FILTER") ∧
      gs.length = (if a.group_by = [] then 0 else 1) ∧
      (∀ s ∈ gs, s.step_type = "GROUP") ∧
      ss.length = (if a.order_by = [] then 0 else 1) ∧
      (∀ s ∈ ss, s.step_type = "SORT") ∧
      ls.length = (match a.limit with
        | some n => if n = 0 then 0 else 1
        | none => 0) ∧
      (∀ s ∈ ls, s.step_type = "LIMIT") ∧
      ps.step_type = "PROJECT" := by
  rw [simulateO_select ans q a ha hty] at hs
  rw [if_neg (by rw [List.isEmpty_iff]; exact ht)] at hs
  cases hm : optMapM (scanStepO ans (!a.where_conditions.isEmpty)) a.tables with
  | none => rw [hm] at hs; cases hs
  | some scans =>
    rw [hm] at hs
    simp only [Option.map_some', Option.some.injEq] at hs
    refine ⟨scans, joinSectionSteps a, filterSectionSteps a, groupSectionSteps a,
      sortSectionSteps a, limitSectionSteps a, projectSectionStep a,
      ?_, optMapM_length _ _ _ hm, ?_, ?_, ?_, ?_, ?_, ?_, ?_, ?_, ?_, ?_, ?_, rfl⟩
    · rw [← hs]; simp [tailSteps, List.append_assoc]
    · intro s hsm
      obtain ⟨t, _, hft⟩ := optMapM_mem _ _ _ hm s hsm
      unfold scanStepO at hft
      cases hidx : (if t.data.isEmpty then ans sqliteMasterIndexQuery
                    else ans ("PRAGMA index_list(" ++ t ++ ")")) with
      | none => rw [hidx] at hft; cases hft
      | some idxs =>
        rw [hidx] at hft
        dsimp only at hft
        by_cases hc : (decide (0 < idxs.length) && !a.where_conditions.isEmpty) = true
        · rw [if_pos hc] at hft
          cases hft; exact Or.inl rfl
        · rw [if_neg hc] at hft
          cases hft; exact Or.inr rfl
    · unfold joinSectionSteps
      by_cases hj : a.has_joins = true
      · rw [if_pos hj, if_pos hj]; exact List.length_map _ _
      · rw [if_neg hj, if_neg hj]; rfl
    · intro s hsm
      unfold joinSectionSteps at hsm
      by_cases hj : a.has_joins = true
      · rw [if_pos hj] at hsm
        obtain ⟨j, _, hjs⟩ := List.mem_map.mp hsm
        rw [← hjs]
      · rw [if_neg hj] at hsm; cases hsm
    · unfold filterSectionSteps
      by_cases hw : a.where_conditions = []
      · rw [if_pos (by rw [List.isEmpty_iff]; exact hw), if_pos hw]; rfl
      · rw [if_neg (by rw [List.isEmpty_iff]; exact hw), if_neg hw]; rfl
    · intro s hsm
      unfold filterSectionSteps at hsm
      by_cases hw : a.where_conditions.isEmpty = true
      · rw [if_pos hw] at hsm; cases hsm
      · rw [if_neg hw] at hsm
        rcases List.mem_singleton.mp hsm with rfl; rfl
    · unfold groupSectionSteps
      by_cases hg : a.group_by = []
      · rw [if_pos (by rw [List.isEmpty_iff]; exact hg), if_pos hg]; rfl
      · rw [if_neg (by rw [List.isEmpty_iff]; exact hg), if_neg hg]; rfl
    · intro s hsm
      unfold groupSectionSteps at hsm
      by_cases hg : a.group_by.isEmpty = true
      · rw [if_pos hg] at hsm; cases hsm
      · rw [if_neg hg] at hsm
        rcases List.mem_singleton.mp hsm with rfl; rfl
    · unfold sortSectionSteps
      by_cases ho : a.order_by = []
      · rw [if_pos (by rw [List.isEmpty_iff]; exact ho), if_pos ho]; rfl
      · rw [if_neg (by rw [List.isEmpty_iff]; exact ho), if_neg ho]; rfl
    · intro s hsm
      unfold sortSectionSteps at hsm
      by_cases ho : a.order_by.isEmpty = true
      · rw [if_pos ho] at hsm; cases hsm
      · rw [if_neg ho] at hsm
        rcases List.mem_singleton.mp hsm with rfl; rfl
    · unfold limitSectionSteps
      rcases hl : a.limit with _ | n
      · rfl
      · dsimp only
        by_cases hn : n = 0
        · rw [if_neg (by simp [hn]), if_pos hn]; rfl
        · rw [if_pos hn, if_neg hn]; rfl
    · intro s hsm
      unfold limitSectionSteps at hsm
      rcases hl : a.limit with _ | n
      · rw [hl] at hsm; cases hsm
      · rw [hl] at hsm
        dsimp only at hsm
        by_cases hn : n ≠ 0
        · rw [if_pos hn] at hsm
          rcases List.mem_singleton.mp hsm with rfl; rfl
        · rw [if_neg hn] at hsm; cases hsm

/-- Witness for the corrected C3: `SELECT * FROM users` over an indexless
store — one TABLE_SCAN, no optional sections, one final PROJECT. -/
theorem c3_select_step_order_witness :
    ∃ scans js fs gs ss ls ps,
      ([tableScanRec "users" 100,
        { step_type := "PROJECT"
          description := "Projecting all columns"
          cost := 1/5
          rows_processed := 20
          details := [("columns", .list ["*"])] }] : List ExecutionStep) =
        scans ++ js ++ fs ++ gs ++ ss ++ ls ++ [ps] ∧
      scans.length = 1 ∧
      (∀ s ∈ scans, s.step_type = "INDEX_SCAN" ∨ s.step_type = "TABLE_SCAN") ∧
      js.length = 0 ∧ (∀ s ∈ js, s.step_type = "JOIN") ∧
      fs.length = 0 ∧ (∀ s ∈ fs, s.step_type = "FILTER") ∧
      gs.length = 0 ∧ (∀ s ∈ gs, s.step_type = "GROUP") ∧
      ss.length = 0 ∧ (∀ s ∈ ss, s.step_type = "SORT") ∧
      ls.length = 0 ∧ (∀ s ∈ ls, s.step_type = "LIMIT") ∧
      ps.step_type = "PROJECT" :=
  c3_select_step_order ansEmpty "SELECT * FROM users"
    { type := "SELECT", tables := ["users"], columns := ["*"],
      where_conditions := [], has_joins := false, joins := [],
      order_by := [], group_by := [], limit := none }
    _ (by decide) rfl (by decide) rfl

/-- Claim C8 counterexample.  A `LIMIT 0` clause parses to a set limit of 0, yet the
plan carries no LIMIT step (`if analysis['limit']:` is falsy for 0); and a
SELECT without tables (`SELECT 1 LIMIT 5`) has a parsed limit of 5 yet an
empty plan. -/
theorem c8_limit_counterexample :
    (analyzeQ "SELECT * FROM users LIMIT 0").map Analysis.limit = some (some 0) ∧
    simulateO ansEmpty "SELECT * FROM users LIMIT 0" =
      some [tableScanRec "users" 100,
            { step_type := "PROJECT"
              description := "Projecting all columns"
              cost := 1/5
              rows_processed := 20
              details := [("columns", .list ["*"])] }] ∧
    (analyzeQ "SELECT 1 LIMIT 5").map Analysis.limit = some (some 5) ∧
    simulateO ansEmpty "SELECT 1 LIMIT 5" = some [] :=
  ⟨by decide, rfl, by decide, by decide⟩

/-- Claim C8 (corrected).  For every SELECT query referencing at least one
table whose analysis yields a nonzero limit `n`, the simulated plan
contains a LIMIT step with `rows_processed = n`. -/
theorem c8_limit_step_rows (ans : String → Option (List (List Nat)))
    (q : String) (a : Analysis) (n : Nat) (steps : List ExecutionStep)
    (ha : analyzeQ q = some a) (hty : a.type = "SELECT")
    (htab : a.tables ≠ []) (hl : a.limit = some n) (hn : n ≠ 0)
    (hs : simulateO ans q = some steps) :
    ∃ s ∈ steps, s.step_type = "LIMIT" ∧ s.rows_processed = n := by
  rw [simulateO_select ans q a ha hty] at hs
  rw [if_neg (by rw [List.isEmpty_iff]; exact htab)] at hs
  cases hm : optMapM (scanStepO ans (!a.where_conditions.isEmpty)) a.tables with
  | none => rw [hm] at hs; cases hs
  | some scans =>
    rw [hm] at hs
    simp only [Option.map_some', Option.some.injEq] at hs
    have hls : limitSectionSteps a =
        [{ step_type := "LIMIT"
           description := "Applying LIMIT " ++ toString n
           cost := 1/10
           rows_processed := n
           details := [("limit", .nat n)] }] := by
      unfold limitSectionSteps
      rw [hl]
      dsimp only
      rw [if_pos hn]
    refine ⟨{ step_type := "LIMIT"
              description := "Applying LIMIT " ++ toString n
              cost := 1/10
              rows_processed := n
              details := [("limit", .nat n)] }, ?_, rfl, rfl⟩
    rw [← hs]
    simp [tailSteps, hls]

/-- Witness for the corrected C8: `SELECT * FROM users LIMIT 5` — the plan
holds a LIMIT step processing 5 rows. -/
theorem c8_limit_step_rows_witness :
    ∃ s ∈ ([tableScanRec "users" 100,
            { step_type := "LIMIT"
              description := "Applying LIMIT " ++ toString 5
              cost := 1/10
              rows_processed := 5
              details := [("limit", .nat 5)] },
            { step_type := "PROJECT"
              description := "Projecting all columns"
              cost := 1/5
              rows_processed := 20
              details := [("columns", .list ["*"])] }] : List ExecutionStep),
      s.step_type = "LIMIT" ∧ s.rows_processed = 5 :=
  c8_limit_step_rows ansEmpty "SELECT * FROM users LIMIT 5"
    { type := "SELECT", tables := ["users"], columns := ["*"],
      where_conditions := [], has_joins := false, joins := [],
      order_by := [], group_by := [], limit := some 5 }
    5 _ (by decide) rfl (by decide) rfl (by decide) rfl

theorem scanSuggestions_empty {steps : List ExecutionStep}
    (h : ∀ s ∈ steps, ¬(s.step_type = "TABLE_SCAN" ∧
      (getDetail s.details "index_used" (.bool false)).truthy = false)) :
    scanSuggestions steps = [] := by
  induction steps with
  | nil => rfl
  | cons s rest ih =>
    unfold scanSuggestions
    have hcond : (decide (s.step_type = "TABLE_SCAN") &&
        !(getDetail s.details "index_used" (.bool false)).truthy) = false := by
      by_cases h1 : s.step_type = "TABLE_SCAN"
      · have h2 := h s (by simp)
        rw [not_and] at h2
        have h3 := h2 h1
        cases h4 : (getDetail s.details "index_used" (.bool false)).truthy
        · exact absurd h4 h3
        · simp [h1, h4]
      · simp [h1]
    rw [hcond]
    simp only [Bool.false_eq_true, if_false, List.nil_append]
    exact ih (fun x hx => h x (by simp [hx]))

/-- Claim C9 counterexample.  An analysis with WHERE conditions handed a
step list with no scan step at all: no step is a TABLE_SCAN without index
usage and the final (only) step processes 20 ≤ 1000 rows, yet suggestion
(b) — WHERE conditions but no INDEX_SCAN step — fires, so the output is an
advisory string, not the well-optimized message. -/
theorem c9_suggestions_counterexample :
    stepsProjectOnly.all
      (fun s => !(decide (s.step_type = "TABLE_SCAN") &&
        !(getDetail s.details "index_used" (.bool false)).truthy)) = true ∧
    stepsProjectOnly.getLast?.map ExecutionStep.rows_processed = some 20 ∧
    suggestionsOf analysisWhereOnly stepsProjectOnly =
      ["Consider adding indexes on columns used in WHERE clause"] ∧
    showSuggestionsOut analysisWhereOnly stepsProjectOnly ≠ [wellOptimizedMsg] :=
  ⟨by decide, by decide, by decide, by decide⟩

/-- Claim C9 (corrected).  If no step is a TABLE_SCAN without index usage,
the final step (when any) processes at most 1000 rows, and — the condition
the claim omits — WHERE conditions, when present, come with at least one
INDEX_SCAN step, then the suggestion generator emits no advisory string
and reports exactly the single well-optimized message. -/
theorem c9_well_optimized (a : Analysis) (steps : List ExecutionStep)
    (h1 : ∀ s ∈ steps, ¬(s.step_type = "TABLE_SCAN" ∧
      (getDetail s.details "index_used" (.bool false)).truthy = false))
    (h2 : ∀ last, steps.getLast? = some last → last.rows_processed ≤ 1000)
    (h3 : a.where_conditions ≠ [] →
      steps.any (fun s => s.step_type = "INDEX_SCAN") = true) :
    suggestionsOf a steps = [] ∧
    showSuggestionsOut a steps = [wellOptimizedMsg] := by
  have hsug : suggestionsOf a steps = [] := by
    unfold suggestionsOf
    rw [scanSuggestions_empty h1]
    have hmid : (!a.where_conditions.isEmpty &&
        !steps.any (fun s => s.step_type = "INDEX_SCAN")) = false := by
      by_cases hw : a.where_conditions = []
      · have : a.where_conditions.isEmpty = true := by
          rw [List.isEmpty_iff]; exact hw
        simp [this]
      · simp [h3 hw]
    rw [hmid]
    simp only [Bool.false_eq_true, if_false, List.nil_append, List.append_nil]
    cases hlast : steps.getLast? with
    | none => rfl
    | some last =>
      have hle := h2 last hlast
      dsimp only
      rw [if_neg (by omega)]
  refine ⟨hsug, ?_⟩
  unfold showSuggestionsOut
  rw [hsug]
  rfl

/-- Witness for the corrected C9: no WHERE conditions, one small PROJECT
step — the report is exactly the well-optimized message. -/
theorem c9_well_optimized_witness :
    suggestionsOf analysisNoWhere stepsProjectOnly = [] ∧
    showSuggestionsOut analysisNoWhere stepsProjectOnly = [wellOptimizedMsg] :=
  c9_well_optimized analysisNoWhere stepsProjectOnly (by decide)
    (by intro last hl; cases hl; decide)
    (by intro h; exact absurd rfl h)

end TermiBase
